import Mathlib

/-!
Verification development for the Visual Content Mapper repository.

The definitions below are shallow embeddings of the TypeScript source:
`src/types.ts` (storage helpers, `compareAnalyses`, preferences),
`src/unnamed/part_001` (the domain types), `src/unnamed/part_002`
(batch and competitor orchestrators), `src/utils/exportUtils.ts`
(export formatters) and `src/utils/keyboardShortcuts.ts` (shortcut
dispatcher).  JavaScript numbers that the program treats as integers
are modelled as `Int`; `localStorage` is modelled as explicit state
passed through the functions; the external generative-model calls are
parameters (oracles) of the orchestrators that use them.
-/

namespace VCM

theorem exceptBind_ok {ε α β : Type} (a : α) (f : α → Except ε β) :
    ((Except.ok a : Except ε α) >>= f) = f a := rfl

/-- Semantics of JavaScript `Array.prototype.join(sep)` on a list of strings. -/
def jsJoin (sep : String) : List String → String
  | [] => ""
  | [x] => x
  | x :: y :: xs => x ++ sep ++ jsJoin sep (y :: xs)

/-! ## Domain types (src/unnamed/part_001, the repository's types module) -/

/-- Bounding box of a detected section, percentages of the image dimensions. -/
structure Position where
  x : Int
  y : Int
  width : Int
  height : Int
deriving Repr, DecidableEq

/-- One alternative phrasing of a section's content (`ContentVariant`). -/
structure ContentVariant where
  id : String
  content : String
  seoScore : Int
  tone : String
  lengthCategory : String
  predictedCTR : Option Int
  reasoning : String
deriving Repr, DecidableEq

/-- One detected content region of the screenshot (`DetectedSection`). -/
structure DetectedSection where
  id : String
  type : String
  label : String
  position : Position
  currentContent : Option String
  suggestedContent : String
  contentVariants : Option (List ContentVariant)
  seoScore : Int
  keywords : List String
  characterCount : Int
  readabilityScore : Option Int
  sentimentScore : Option Int
  brandVoiceMatch : Option Int
  technicalSeoIssues : Option (List String)
  accessibilityIssues : Option (List String)
deriving Repr, DecidableEq

/-- Competitive-positioning insight (`CompetitorInsight`). -/
structure CompetitorInsight where
  competitorName : String
  strengths : List String
  weaknesses : List String
  uniqueDifferentiators : List String
  keywordGaps : List String
deriving Repr, DecidableEq

/-- Technical SEO recommendation block (`TechnicalSEO`). -/
structure TechnicalSEO where
  metaTitle : Option String
  metaDescription : Option String
  h1Tags : List String
  imageAltTexts : List String
  schemaMarkup : Option String
  internalLinks : List String
  canonicalUrl : Option String
  robotsDirective : Option String
deriving Repr, DecidableEq

/-- Brand-voice consistency block of `AnalysisResult`. -/
structure BrandVoiceAnalysis where
  detectedTone : String
  consistency : Int
  suggestions : List String
deriving Repr, DecidableEq

/-- Core-web-vitals assessments inside `performanceMetrics`. -/
structure CoreWebVitals where
  lcp : String
  fid : String
  cls : String
deriving Repr, DecidableEq

/-- Estimated performance block of `AnalysisResult`. -/
structure PerformanceMetrics where
  estimatedLoadTime : Int
  mobileOptimization : Int
  coreWebVitals : CoreWebVitals
deriving Repr, DecidableEq

/-- Root aggregate produced by one model invocation (`AnalysisResult`). -/
structure AnalysisResult where
  sections : List DetectedSection
  overallSeoScore : Int
  recommendations : List String
  pageType : String
  imageUrl : String
  imageFileName : Option String
  timestamp : Option Int
  technicalSeo : Option TechnicalSEO
  competitorInsights : Option (List CompetitorInsight)
  brandVoiceAnalysis : Option BrandVoiceAnalysis
  performanceMetrics : Option PerformanceMetrics
deriving Repr, DecidableEq

/-- Input configuration recorded with a history entry. -/
structure AnalysisConfig where
  websiteUrl : String
  keywords : List String
  targetAudience : String
deriving Repr, DecidableEq

/-- One stored history record (`AnalysisHistory`). -/
structure AnalysisHistory where
  id : String
  result : AnalysisResult
  timestamp : Int
  config : AnalysisConfig
deriving Repr, DecidableEq

/-! ## Analysis history management (src/types.ts, `saveAnalysisToHistory`)

The stored history list is the JSON value under the
`vcm_analysis_history` key; here it is carried as an explicit
`List AnalysisHistory`.  `Date.now()` and `Math.random()` are
nondeterministic inputs of one save, so a save step takes them as
arguments. -/

/-- Inputs of one `saveAnalysisToHistory` call: the result and config passed
by the caller plus the clock value and random suffix drawn inside the call. -/
structure SaveInput where
  result : AnalysisResult
  config : AnalysisConfig
  now : Int
  rand : String
deriving Repr, DecidableEq

/-- History record built by `saveAnalysisToHistory` before it is prepended:
id is `analysis_` + `Date.now()` + `_` + random suffix. -/
def mkHistoryEntry (i : SaveInput) : AnalysisHistory :=
  { id := "analysis_" ++ toString i.now ++ "_" ++ i.rand
    result := i.result
    timestamp := i.now
    config := i.config }

/-- One `saveAnalysisToHistory` call acting on the stored list: `unshift` the
new entry, then `splice(50)` when the length exceeds 50. -/
def saveAnalysisToHistory (i : SaveInput) (history : List AnalysisHistory) :
    List AnalysisHistory :=
  let history := mkHistoryEntry i :: history
  if history.length > 50 then history.take 50 else history

/-- Stored list after a sequence of `saveAnalysisToHistory` calls starting
from the given stored list. -/
def runSaves (start : List AnalysisHistory) (inputs : List SaveInput) :
    List AnalysisHistory :=
  inputs.foldl (fun h i => saveAnalysisToHistory i h) start

theorem saveAnalysisToHistory_eq_take (i : SaveInput) (h : List AnalysisHistory) :
    saveAnalysisToHistory i h = (mkHistoryEntry i :: h).take 50 := by
  unfold saveAnalysisToHistory
  by_cases hl : (mkHistoryEntry i :: h).length > 50
  · simp [hl]
  · simp only [hl, if_false]
    exact (List.take_of_length_le (by omega)).symm

theorem take_append_take (a b : List AnalysisHistory) (n : Nat) :
    (a ++ b.take n).take n = (a ++ b).take n := by
  rw [List.take_append_eq_append_take, List.take_append_eq_append_take,
    List.take_take, Nat.min_eq_left (Nat.sub_le n a.length)]

theorem runSaves_eq (start : List AnalysisHistory) (hstart : start.length ≤ 50)
    (inputs : List SaveInput) :
    runSaves start inputs = ((inputs.map mkHistoryEntry).reverse ++ start).take 50 := by
  induction inputs generalizing start with
  | nil =>
    simp [runSaves, List.take_of_length_le hstart]
  | cons i is ih =>
    have step : runSaves start (i :: is) =
        runSaves (saveAnalysisToHistory i start) is := rfl
    rw [step, ih _ (by rw [saveAnalysisToHistory_eq_take]; simp)]
    rw [saveAnalysisToHistory_eq_take]
    rw [take_append_take]
    simp [List.append_assoc]

/-- Claim C1: for every sequence of N `saveAnalysisToHistory` calls starting
from empty storage, the stored list equals the reversed sequence of created
records truncated to 50 — so the most recently saved record is at position 0,
the order is newest-first, entries beyond the 50 newest are evicted, and the
length is `min N 50`. -/
theorem claim_C1_history_cap (inputs : List SaveInput) :
    runSaves [] inputs = (inputs.map mkHistoryEntry).reverse.take 50 ∧
    (runSaves [] inputs).length = min inputs.length 50 := by
  have h := runSaves_eq [] (by simp) inputs
  simp only [List.append_nil] at h
  refine ⟨h, ?_⟩
  rw [h, List.length_take, List.length_reverse, List.length_map, Nat.min_comm]

/-! ## User preferences (src/types.ts, `savePreferences` / `getPreferences`)

The stored value under the preferences key may be a partial record (a
subset of the recognized fields), modelled with `Option` fields.  A
read merges the stored subset over the defaults, object-spread style;
a write merges the caller's partial record over the current full
record and stores the full result. -/

/-- Theme preference: `'dark' | 'light' | 'auto'`. -/
inductive Theme where
  | dark
  | light
  | auto
deriving Repr, DecidableEq

/-- Default export format preference: `'markdown' | 'json' | 'html' | 'csv'`. -/
inductive ExportFormatPref where
  | markdown
  | json
  | html
  | csv
deriving Repr, DecidableEq

/-- Full preferences record (`UserPreferences`). -/
structure UserPreferences where
  autoSaveHistory : Bool
  defaultExportFormat : ExportFormatPref
  enableVariants : Bool
  variantCount : Int
  theme : Theme
  showAdvancedMetrics : Bool
  autoLoadBrandVoice : Bool
deriving Repr, DecidableEq

/-- Partial preferences record (`Partial<UserPreferences>`): each field may
be absent. -/
structure PartialPreferences where
  autoSaveHistory : Option Bool
  defaultExportFormat : Option ExportFormatPref
  enableVariants : Option Bool
  variantCount : Option Int
  theme : Option Theme
  showAdvancedMetrics : Option Bool
  autoLoadBrandVoice : Option Bool
deriving Repr, DecidableEq

/-- Defaults (`DEFAULT_PREFERENCES`). -/
def DEFAULT_PREFERENCES : UserPreferences :=
  { autoSaveHistory := true
    defaultExportFormat := .markdown
    enableVariants := true
    variantCount := 3
    theme := .dark
    showAdvancedMetrics := true
    autoLoadBrandVoice := true }

/-- Object spread `{...base, ...p}`: fields present in `p` override `base`. -/
def spreadPrefs (base : UserPreferences) (p : PartialPreferences) : UserPreferences :=
  { autoSaveHistory := p.autoSaveHistory.getD base.autoSaveHistory
    defaultExportFormat := p.defaultExportFormat.getD base.defaultExportFormat
    enableVariants := p.enableVariants.getD base.enableVariants
    variantCount := p.variantCount.getD base.variantCount
    theme := p.theme.getD base.theme
    showAdvancedMetrics := p.showAdvancedMetrics.getD base.showAdvancedMetrics
    autoLoadBrandVoice := p.autoLoadBrandVoice.getD base.autoLoadBrandVoice }

/-- View of a full record as a stored record with every field present. -/
def prefsAsStored (u : UserPreferences) : PartialPreferences :=
  { autoSaveHistory := some u.autoSaveHistory
    defaultExportFormat := some u.defaultExportFormat
    enableVariants := some u.enableVariants
    variantCount := some u.variantCount
    theme := some u.theme
    showAdvancedMetrics := some u.showAdvancedMetrics
    autoLoadBrandVoice := some u.autoLoadBrandVoice }

/-- Read of the preferences key: absent storage yields the defaults, a stored
record is spread over the defaults (`{...DEFAULT_PREFERENCES, ...parsed}`). -/
def getPreferences (stored : Option PartialPreferences) : UserPreferences :=
  match stored with
  | none => DEFAULT_PREFERENCES
  | some p => spreadPrefs DEFAULT_PREFERENCES p

/-- Write of the preferences key: `{...current, ...preferences}` where
`current = getPreferences()`, stored as a full record. -/
def savePreferences (preferences : PartialPreferences)
    (stored : Option PartialPreferences) : Option PartialPreferences :=
  some (prefsAsStored (spreadPrefs (getPreferences stored) preferences))

/-- Claim C6: a read always yields a full record — on first use the defaults —
and a read after a partial write returns the written value on each field the
partial record carries and the prior value on every other field. -/
theorem claim_C6_preferences_merge (stored : Option PartialPreferences)
    (p : PartialPreferences) :
    getPreferences (savePreferences p stored) =
      spreadPrefs (getPreferences stored) p ∧
    getPreferences none = DEFAULT_PREFERENCES := by
  constructor
  · cases p with
    | mk a b c d e f g =>
      cases a <;> cases b <;> cases c <;> cases d <;> cases e <;> cases f <;> cases g <;>
        rfl
  · rfl

/-! ## Keyboard shortcut dispatcher (src/utils/keyboardShortcuts.ts)

The `handleKeyDown` callback installed by `useKeyboardShortcuts` is
modelled as a function from the enabled flag, the key event and the
shortcut list to the entry whose action it invokes (`none` when it
invokes nothing).  The optional `ctrl/alt/shift/meta` flags of an
entry are JavaScript truthiness tests, so absent flags are `false`. -/

/-- One entry of the shortcut table (`KeyboardShortcut`); the `action`
callback is irrelevant to dispatching and is left out — the dispatcher
below returns the chosen entry instead of running its action. -/
structure KeyboardShortcut where
  key : String
  ctrl : Bool
  alt : Bool
  shift : Bool
  meta : Bool
  description : String
  category : String
deriving Repr, DecidableEq

/-- Relevant observations of a browser `KeyboardEvent`. -/
structure KeyEvent where
  key : String
  ctrlKey : Bool
  altKey : Bool
  shiftKey : Bool
  metaKey : Bool
  targetTag : String
  targetIsContentEditable : Bool
deriving Repr, DecidableEq

/-- Guard of the dispatcher: the event target is an `INPUT`, a `TEXTAREA`
or a content-editable element. -/
def isTextEntryTarget (event : KeyEvent) : Bool :=
  event.targetTag == "INPUT" || event.targetTag == "TEXTAREA" ||
    event.targetIsContentEditable

/-- ASCII model of `String.prototype.toLowerCase()`. -/
def jsToLowerCase (s : String) : String :=
  String.mk (s.data.map fun c =>
    if 65 ≤ c.toNat ∧ c.toNat ≤ 90 then Char.ofNat (c.toNat + 32) else c)

/-- Match test of the loop body: case-insensitive key equality
(`keyMatch`), `ctrl` matched against `ctrlKey || metaKey` (`ctrlMatch`),
`alt` and `shift` matched exactly; the entry's `meta` flag is not read. -/
def chordMatches (event : KeyEvent) (s : KeyboardShortcut) : Bool :=
  (jsToLowerCase event.key == jsToLowerCase s.key) &&
  (if s.ctrl then event.ctrlKey || event.metaKey
    else !event.ctrlKey && !event.metaKey) &&
  (if s.alt then event.altKey else !event.altKey) &&
  (if s.shift then event.shiftKey else !event.shiftKey)

/-- The `handleKeyDown` callback: bail out when disabled or when the focus
is in a text-entry control, otherwise invoke the first matching entry and
stop. -/
def handleKeyDown (enabled : Bool) (event : KeyEvent)
    (shortcuts : List KeyboardShortcut) : Option KeyboardShortcut :=
  if !enabled then none
  else if isTextEntryTarget event then none
  else shortcuts.find? (chordMatches event)

/-- Match relation as claim C3 words it: case-insensitive key equality and
exact agreement on every modifier flag, an unspecified modifier being
required absent. -/
def chordMatchesClaim (event : KeyEvent) (s : KeyboardShortcut) : Prop :=
  jsToLowerCase event.key = jsToLowerCase s.key ∧
  s.ctrl = event.ctrlKey ∧ s.alt = event.altKey ∧
  s.shift = event.shiftKey ∧ s.meta = event.metaKey

/-- Match relation that the code actually implements: case-insensitive key
equality, exact agreement on `alt` and `shift`, and a pooled Ctrl/Meta
check — an entry with `ctrl` set accepts either Ctrl or Meta in the event,
an entry without `ctrl` requires both absent; the entry's own `meta` flag
is never consulted. -/
def chordMatchesAmended (event : KeyEvent) (s : KeyboardShortcut) : Prop :=
  jsToLowerCase event.key = jsToLowerCase s.key ∧
  s.alt = event.altKey ∧ s.shift = event.shiftKey ∧
  (s.ctrl = true → (event.ctrlKey = true ∨ event.metaKey = true)) ∧
  (s.ctrl = false → event.ctrlKey = false ∧ event.metaKey = false)

instance (event : KeyEvent) (s : KeyboardShortcut) :
    Decidable (chordMatchesAmended event s) := by
  unfold chordMatchesAmended
  infer_instance

theorem chordMatches_eq_decide_amended (event : KeyEvent) (s : KeyboardShortcut) :
    chordMatches event s = decide (chordMatchesAmended event s) := by
  obtain ⟨k, c, a, sh, m, d, cat⟩ := s
  obtain ⟨ek, ec, ea, es, em, tt, te⟩ := event
  simp only [chordMatches, chordMatchesAmended]
  by_cases hk : jsToLowerCase ek = jsToLowerCase k
  · cases c <;> cases a <;> cases sh <;> cases ec <;> cases ea <;>
      cases es <;> cases em <;> simp_all
  · simp_all

/-- Event used to refute claim C3: a plain `k` keydown with only the Meta
key held, focused outside any text-entry control. -/
def metaOnlyEvent : KeyEvent :=
  { key := "k", ctrlKey := false, altKey := false, shiftKey := false,
    metaKey := true, targetTag := "DIV", targetIsContentEditable := false }

/-- Shortcut entry used to refute claim C3: `Ctrl+K` with no other flags. -/
def ctrlKShortcut : KeyboardShortcut :=
  { key := "k", ctrl := true, alt := false, shift := false, meta := false,
    description := "Search", category := "general" }

/-- Claim C3 as stated is false: with only Meta held, the dispatcher
invokes the `Ctrl+K` entry although its chord does not match under the
claim's exact-modifier-agreement rule (`ctrl` is specified but Ctrl is
absent in the event, and Meta is unspecified but present). -/
theorem claim_C3_counterexample :
    handleKeyDown true metaOnlyEvent [ctrlKShortcut] = some ctrlKShortcut ∧
    ¬ chordMatchesClaim metaOnlyEvent ctrlKShortcut := by
  refine ⟨by decide, fun h => ?_⟩
  have := h.2.1
  simp [ctrlKShortcut, metaOnlyEvent] at this

/-- Claim C3 amended: for every key event not targeting a text-entry
control, the enabled dispatcher scans the list in declaration order and
invokes exactly the first entry whose chord matches, where a match
requires case-insensitive key equality, exact agreement on the `alt` and
`shift` flags, and a pooled Ctrl/Meta check (`ctrl` set accepts Ctrl or
Meta; `ctrl` unset requires both absent); the entry's `meta` flag is
ignored. -/
theorem claim_C3_first_match (enabled : Bool) (event : KeyEvent)
    (shortcuts : List KeyboardShortcut) (he : enabled = true)
    (ht : isTextEntryTarget event = false) :
    handleKeyDown enabled event shortcuts =
      shortcuts.find? (fun s => decide (chordMatchesAmended event s)) := by
  subst he
  have h1 : handleKeyDown true event shortcuts =
      shortcuts.find? (chordMatches event) := by
    unfold handleKeyDown
    simp [ht]
  rw [h1]
  congr 1
  funext s
  exact chordMatches_eq_decide_amended event s

/-- Witness for the amended claim C3 at a concrete event and table: a plain
`j` keydown with no modifiers held selects the `j` navigation entry. -/
theorem claim_C3_first_match_witness :
    isTextEntryTarget
      { key := "j", ctrlKey := false, altKey := false, shiftKey := false,
        metaKey := false, targetTag := "BODY",
        targetIsContentEditable := false } = false ∧
    handleKeyDown true
      { key := "j", ctrlKey := false, altKey := false, shiftKey := false,
        metaKey := false, targetTag := "BODY",
        targetIsContentEditable := false }
      [{ key := "j", ctrl := false, alt := false, shift := false,
         meta := false, description := "Next section",
         category := "navigation" }] =
      [({ key := "j", ctrl := false, alt := false, shift := false,
          meta := false, description := "Next section",
          category := "navigation" } : KeyboardShortcut)].find?
        (fun s => decide (chordMatchesAmended
          { key := "j", ctrlKey := false, altKey := false,
            shiftKey := false, metaKey := false, targetTag := "BODY",
            targetIsContentEditable := false } s)) :=
  ⟨rfl, claim_C3_first_match true _ _ rfl rfl⟩

/-- Claim C9: a key event whose target is a text-entry control invokes no
registered action, whatever the entries and the modifier state. -/
theorem claim_C9_text_entry_suppression (enabled : Bool) (event : KeyEvent)
    (shortcuts : List KeyboardShortcut)
    (h : isTextEntryTarget event = true) :
    handleKeyDown enabled event shortcuts = none := by
  unfold handleKeyDown
  cases enabled <;> simp [h]

/-- Witness for claim C9: a `Ctrl+K` chord that would match the table's
entry is dropped because the focus is in an `INPUT` element. -/
theorem claim_C9_text_entry_suppression_witness :
    isTextEntryTarget
      { key := "k", ctrlKey := true, altKey := false, shiftKey := false,
        metaKey := false, targetTag := "INPUT",
        targetIsContentEditable := false } = true ∧
    handleKeyDown true
      { key := "k", ctrlKey := true, altKey := false, shiftKey := false,
        metaKey := false, targetTag := "INPUT",
        targetIsContentEditable := false }
      [{ key := "k", ctrl := true, alt := false, shift := false,
         meta := false, description := "Search", category := "general" }] =
      none :=
  ⟨rfl, claim_C9_text_entry_suppression true _ _ rfl⟩

/-! ## CSV export (src/utils/exportUtils.ts, `exportToCSV`) -/

/-- Global single-character replacement `content.replace(/"/g, '""')`:
every double-quote character is replaced by two. -/
def replaceQuotesGlobal : List Char → List Char
  | [] => []
  | c :: cs =>
    if c = '"' then '"' :: '"' :: replaceQuotesGlobal cs
    else c :: replaceQuotesGlobal cs

/-- CSV formatter: a header line, then one line per section with the
fields label, type, score, keywords joined by `; `, character count and
the quote-escaped content wrapped in double quotes; fields joined by `,`
and lines by newline. -/
def exportToCSV (analysis : AnalysisResult) : String :=
  let headers := ["Section", "Type", "SEO Score", "Keywords",
    "Character Count", "Content"]
  let rows := analysis.sections.map (fun s =>
    [s.label, s.type, toString s.seoScore, jsJoin "; " s.keywords,
      toString s.characterCount,
      "\"" ++ String.mk (replaceQuotesGlobal s.suggestedContent.data) ++ "\""])
  jsJoin "\n" (jsJoin "," headers :: rows.map (fun row => jsJoin "," row))

/-- Content escaping as claim C7 words it: every embedded double-quote
character doubled. -/
def doubledQuotes (s : String) : String :=
  String.mk (s.data.foldr
    (fun c acc => if c = '"' then '"' :: '"' :: acc else c :: acc) [])

/-- One CSV row as claim C7 words it: label, type, SEO score, keywords
joined by semicolons, character count, and the suggested content wrapped
in double quotes with embedded double quotes doubled. -/
def csvRowClaim (s : DetectedSection) : String :=
  s.label ++ "," ++ s.type ++ "," ++ toString s.seoScore ++ "," ++
    String.intercalate "; " s.keywords ++ "," ++
    toString s.characterCount ++ "," ++
    ("\"" ++ doubledQuotes s.suggestedContent ++ "\"")

/-- Tail part of a separated join: `sep ++ a` for each element, concatenated. -/
def sepConcat (s : String) (l : List String) : String :=
  l.foldr (fun a r => s ++ a ++ r) ""

theorem intercalate_go_eq (s : String) (l : List String) (acc : String) :
    String.intercalate.go acc s l = acc ++ sepConcat s l := by
  induction l generalizing acc with
  | nil => simp [String.intercalate.go, sepConcat]
  | cons a as ih =>
    rw [String.intercalate.go, ih]
    simp [sepConcat, String.append_assoc]

theorem jsJoin_eq_intercalate (s : String) (l : List String) :
    jsJoin s l = String.intercalate s l := by
  match l with
  | [] => rfl
  | [x] => simp [jsJoin, String.intercalate, intercalate_go_eq, sepConcat]
  | x :: y :: xs =>
    rw [jsJoin, jsJoin_eq_intercalate s (y :: xs)]
    simp only [String.intercalate, intercalate_go_eq]
    simp [sepConcat, String.append_assoc]

theorem replaceQuotesGlobal_eq_foldr (l : List Char) :
    replaceQuotesGlobal l =
      l.foldr (fun c acc => if c = '"' then '"' :: '"' :: acc else c :: acc)
        [] := by
  induction l with
  | nil => rfl
  | cons c cs ih => simp [replaceQuotesGlobal, ih]

/-- Claim C7: for every analysis result the CSV export is the header line
followed by exactly one line per section, in section order, whose fields
are label, type, SEO score, keywords joined by semicolons, character count
and the suggested content wrapped in double quotes with every embedded
double quote doubled. -/
theorem claim_C7_csv_shape (a : AnalysisResult) :
    exportToCSV a = String.intercalate "\n"
      ("Section,Type,SEO Score,Keywords,Character Count,Content" ::
        a.sections.map csvRowClaim) := by
  have hrow : ∀ s : DetectedSection,
      jsJoin ","
        [s.label, s.type, toString s.seoScore, jsJoin "; " s.keywords,
          toString s.characterCount,
          "\"" ++ String.mk (replaceQuotesGlobal s.suggestedContent.data) ++
            "\""] = csvRowClaim s := by
    intro s
    simp only [jsJoin, csvRowClaim, doubledQuotes,
      replaceQuotesGlobal_eq_foldr, jsJoin_eq_intercalate]
    simp [String.append_assoc]
  unfold exportToCSV
  rw [jsJoin_eq_intercalate, List.map_map]
  simp only [Function.comp_def]
  simp only [hrow]
  have hh : jsJoin ","
      ["Section", "Type", "SEO Score", "Keywords", "Character Count",
        "Content"] =
      "Section,Type,SEO Score,Keywords,Character Count,Content" := by
    decide
  rw [hh]

/-! ## Batch orchestrator (src/unnamed/part_002, `actionBatchAnalyze`)

The single-image analysis (`actionAnalyzeScreenshotEnhanced`) is one
round trip to the external model; it is a parameter here, a function
from the uploaded file to success or failure.  The `onProgress`
callback and the analysis invocations are recorded as an event trace
in the order they happen. -/

/-- Uploaded browser file: its name and an abstract content tag. -/
structure BrowserFile where
  name : String
  content : String
deriving Repr, DecidableEq

/-- Observable step of a batch run: one `onProgress(pct, label)` callback
or one invocation of the single-image analysis. -/
inductive BatchEvent where
  | progress (pct : ℚ) (label : String)
  | call (file : BrowserFile)
deriving Repr, DecidableEq

/-- Loop body of `actionBatchAnalyze`: report `(i / total) * 100` with the
file name, invoke the analysis, keep the result on success and skip the
item on failure. -/
def batchLoop (analyze : BrowserFile → Except String AnalysisResult)
    (total : ℚ) : List BrowserFile → Nat →
    List AnalysisResult × List BatchEvent
  | [], _ => ([], [.progress 100 "Completed"])
  | f :: fs, i =>
    let rest := batchLoop analyze total fs (i + 1)
    let events := BatchEvent.progress ((i : ℚ) / total * 100) f.name ::
      BatchEvent.call f :: rest.2
    match analyze f with
    | .ok r => (r :: rest.1, events)
    | .error _ => (rest.1, events)

/-- Batch analysis over a list of screenshots, returning the collected
results and the event trace; the final `onProgress(100, 'Completed')` is
issued after the loop unconditionally. -/
def actionBatchAnalyze (analyze : BrowserFile → Except String AnalysisResult)
    (imageFiles : List BrowserFile) :
    List AnalysisResult × List BatchEvent :=
  batchLoop analyze (imageFiles.length : ℚ) imageFiles 0

theorem batchLoop_eq (analyze : BrowserFile → Except String AnalysisResult)
    (total : ℚ) (fs : List BrowserFile) (i : Nat) :
    batchLoop analyze total fs i =
      (fs.filterMap (fun f => (analyze f).toOption),
        ((List.range' i fs.length).zip fs).flatMap
          (fun p => [BatchEvent.progress ((p.1 : ℚ) / total * 100) p.2.name,
            BatchEvent.call p.2]) ++
          [BatchEvent.progress 100 "Completed"]) := by
  induction fs generalizing i with
  | nil => simp [batchLoop]
  | cons f fs ih =>
    rw [batchLoop, ih]
    cases h : analyze f <;>
      simp [List.range'_succ, Except.toOption, h, List.filterMap_cons]

/-- Claim C4: for every analysis oracle and input list, the batch
orchestrator returns exactly the successful results in input order (failed
items are skipped, so the list may be shorter than the input), and its
event trace interleaves, strictly sequentially and once per image, an
`onProgress(index / total * 100, name)` report directly before each
analysis invocation, ending with an unconditional `onProgress(100,
'Completed')` after the loop. -/
theorem claim_C4_batch_trace
    (analyze : BrowserFile → Except String AnalysisResult)
    (imageFiles : List BrowserFile) :
    actionBatchAnalyze analyze imageFiles =
      (imageFiles.filterMap (fun f => (analyze f).toOption),
        ((List.range imageFiles.length).zip imageFiles).flatMap
          (fun p =>
            [BatchEvent.progress
              ((p.1 : ℚ) / (imageFiles.length : ℚ) * 100) p.2.name,
              BatchEvent.call p.2]) ++
          [BatchEvent.progress 100 "Completed"]) := by
  rw [actionBatchAnalyze, batchLoop_eq, List.range_eq_range']

/-! ## Competitor comparison orchestrator (src/unnamed/part_002,
`actionCompetitorComparison` and `generateCompetitiveInsights`)

The single-image analysis is again an oracle, now from the full
argument record so that the arguments of each invocation are visible.
The insight-synthesis model call is an oracle returning either a
failure, or a parsed response whose optional `insights` field is
`none` when absent or falsy. -/

/-- Arguments of one `actionAnalyzeScreenshotEnhanced` invocation. -/
structure AnalyzeArgs where
  imageFile : BrowserFile
  websiteUrl : String
  keywords : List String
  targetAudience : String
  generateVariants : Bool
deriving Repr, DecidableEq

/-- Return shape of `actionCompetitorComparison`. -/
structure CompetitorComparisonOutcome where
  yourAnalysis : AnalysisResult
  competitorAnalyses : List AnalysisResult
  insights : List CompetitorInsight
deriving Repr, DecidableEq

/-- Synthesis step: one model call; on failure the caught error yields an
empty list, on success the parsed payload's `insights` field is returned,
`[]` when that field is absent (`insights.insights || []`). -/
def generateCompetitiveInsights
    (synth : AnalysisResult → List AnalysisResult → List String →
      Except String (Option (List CompetitorInsight)))
    (yourAnalysis : AnalysisResult)
    (competitorAnalyses : List AnalysisResult)
    (keywords : List String) : List CompetitorInsight :=
  match synth yourAnalysis competitorAnalyses keywords with
  | .ok (some insights) => insights
  | .ok none => []
  | .error _ => []

/-- Competitor comparison: analyze the primary screenshot with variants,
then each competitor screenshot sequentially with `generateVariants =
false` and the `websiteUrl` replaced by the placeholder `'Competitor'`,
then synthesize insights. -/
def actionCompetitorComparison
    (analyze : AnalyzeArgs → Except String AnalysisResult)
    (synth : AnalysisResult → List AnalysisResult → List String →
      Except String (Option (List CompetitorInsight)))
    (yourScreenshot : BrowserFile)
    (competitorScreenshots : List BrowserFile)
    (websiteUrl : String) (keywords : List String)
    (targetAudience : String) :
    Except String CompetitorComparisonOutcome := do
  let yourAnalysis ← analyze
    { imageFile := yourScreenshot, websiteUrl := websiteUrl,
      keywords := keywords, targetAudience := targetAudience,
      generateVariants := true }
  let competitorAnalyses ← competitorScreenshots.mapM (fun f => analyze
    { imageFile := f, websiteUrl := "Competitor", keywords := keywords,
      targetAudience := targetAudience, generateVariants := false })
  let insights :=
    generateCompetitiveInsights synth yourAnalysis competitorAnalyses
      keywords
  pure
    { yourAnalysis := yourAnalysis,
      competitorAnalyses := competitorAnalyses, insights := insights }

/-- Claim C5: whenever the primary analysis succeeds, every competitor
analysis — invoked with `generateVariants = false` and `websiteUrl`
replaced by the fixed placeholder `'Competitor'` instead of the real
competitor identity — succeeds, and the final insight-synthesis call
fails, the orchestrator still returns the primary analysis and all
competitor analyses with an empty insights list instead of propagating
the synthesis failure. -/
theorem claim_C5_synthesis_failure
    (analyze : AnalyzeArgs → Except String AnalysisResult)
    (synth : AnalysisResult → List AnalysisResult → List String →
      Except String (Option (List CompetitorInsight)))
    (yourScreenshot : BrowserFile)
    (competitorScreenshots : List BrowserFile)
    (websiteUrl : String) (keywords : List String) (targetAudience : String)
    (a : AnalysisResult) (cs : List AnalysisResult) (e : String)
    (hy : analyze
      { imageFile := yourScreenshot, websiteUrl := websiteUrl,
        keywords := keywords, targetAudience := targetAudience,
        generateVariants := true } = .ok a)
    (hc : competitorScreenshots.mapM (fun f => analyze
      { imageFile := f, websiteUrl := "Competitor", keywords := keywords,
        targetAudience := targetAudience, generateVariants := false }) =
      .ok cs)
    (hs : synth a cs keywords = .error e) :
    actionCompetitorComparison analyze synth yourScreenshot
      competitorScreenshots websiteUrl keywords targetAudience =
      .ok { yourAnalysis := a, competitorAnalyses := cs, insights := [] } := by
  unfold actionCompetitorComparison
  rw [hy]
  simp only [exceptBind_ok]
  rw [hc]
  simp only [exceptBind_ok, generateCompetitiveInsights, hs]
  rfl

/-- Witness for claim C5: one competitor screenshot, an oracle that
analyzes every request to a fixed empty result, and a synthesis oracle that
always fails. -/
theorem claim_C5_synthesis_failure_witness :
    actionCompetitorComparison
      (fun _ => .ok
        { sections := [], overallSeoScore := 0, recommendations := [],
          pageType := "Landing Page", imageUrl := "blob:a",
          imageFileName := none, timestamp := none, technicalSeo := none,
          competitorInsights := none, brandVoiceAnalysis := none,
          performanceMetrics := none })
      (fun _ _ _ => .error "synthesis failed")
      { name := "you.png", content := "y" }
      [{ name := "rival.png", content := "r" }]
      "https://example.com" ["seo"] "developers" =
      .ok
        { yourAnalysis :=
            { sections := [], overallSeoScore := 0, recommendations := [],
              pageType := "Landing Page", imageUrl := "blob:a",
              imageFileName := none, timestamp := none,
              technicalSeo := none, competitorInsights := none,
              brandVoiceAnalysis := none, performanceMetrics := none },
          competitorAnalyses :=
            [{ sections := [], overallSeoScore := 0, recommendations := [],
               pageType := "Landing Page", imageUrl := "blob:a",
               imageFileName := none, timestamp := none,
               technicalSeo := none, competitorInsights := none,
               brandVoiceAnalysis := none, performanceMetrics := none }],
          insights := [] } :=
  claim_C5_synthesis_failure _ _ _ _ _ _ _ _ _ _ rfl rfl rfl

/-! ## Comparison of two analyses (src/types.ts, `compareAnalyses`)

`new Map(sections.map(s => [s.id, s]))` is modelled as an association
list with JavaScript `Map` insertion semantics: inserting an existing
key overwrites the value in place, a fresh key is appended; `forEach`
iterates in that order.  The two `forEach` loops of the source are the
two folds below, the second accumulating its three arrays at once. -/

/-- Map insertion: overwrite in place when the key exists, append
otherwise. -/
def mapSet (m : List (String × DetectedSection)) (k : String)
    (v : DetectedSection) : List (String × DetectedSection) :=
  match m with
  | [] => [(k, v)]
  | (k', v') :: t =>
    if k' = k then (k, v) :: t else (k', v') :: mapSet t k v

/-- Map construction `new Map(analysis.sections.map(s => [s.id, s]))`. -/
def mkSectionMap (sections : List DetectedSection) :
    List (String × DetectedSection) :=
  sections.foldl (fun m s => mapSet m s.id s) []

/-- Map membership test (`Map.has`). -/
def mapHas (m : List (String × DetectedSection)) (k : String) : Bool :=
  m.any (fun p => p.1 == k)

/-- Map lookup (`Map.get`), `none` for a missing key. -/
def mapGet (m : List (String × DetectedSection)) (k : String) :
    Option DetectedSection :=
  (m.find? (fun p => p.1 == k)).map (fun p => p.2)

/-- Return record of `compareAnalyses`. -/
structure ComparisonResult where
  seoScoreDelta : Int
  sectionsAdded : List String
  sectionsRemoved : List String
  sectionsImproved : List String
  sectionsDeclined : List String
  overallImprovement : Bool
deriving Repr, DecidableEq

/-- Comparison of two analyses: sections matched by id through the two
maps, the first loop collecting added labels, the second collecting
removed, improved and declined labels. -/
def compareAnalyses (analysis1 analysis2 : AnalysisResult) :
    ComparisonResult :=
  let seoScoreDelta :=
    analysis2.overallSeoScore - analysis1.overallSeoScore
  let sections1 := mkSectionMap analysis1.sections
  let sections2 := mkSectionMap analysis2.sections
  let sectionsAdded := sections2.foldl
    (fun acc p => if !mapHas sections1 p.1 then acc ++ [p.2.label] else acc)
    []
  let rid := sections1.foldl
    (fun acc p =>
      match mapGet sections2 p.1 with
      | none => (acc.1 ++ [p.2.label], acc.2.1, acc.2.2)
      | some section2 =>
        if section2.seoScore > p.2.seoScore then
          (acc.1, acc.2.1 ++ [section2.label], acc.2.2)
        else if section2.seoScore < p.2.seoScore then
          (acc.1, acc.2.1, acc.2.2 ++ [section2.label])
        else acc)
    ([], [], [])
  { seoScoreDelta := seoScoreDelta
    sectionsAdded := sectionsAdded
    sectionsRemoved := rid.1
    sectionsImproved := rid.2.1
    sectionsDeclined := rid.2.2
    overallImprovement := decide (seoScoreDelta > 0) }

/-- Outcome of `compareAnalyses` as claim C2 words it: the score delta is
`b.overallSeoScore - a.overallSeoScore`; a section id only in `b` is
added, only in `a` is removed; an id in both with a strictly higher score
in `b` is improved, strictly lower declined, equal neither; overall
improvement holds exactly when the delta is positive. -/
def compareClaim (a b : AnalysisResult) : ComparisonResult :=
  { seoScoreDelta := b.overallSeoScore - a.overallSeoScore
    sectionsAdded :=
      ((b.sections.filter
        (fun s => !a.sections.any (fun t => t.id == s.id))).map
          (fun s => s.label))
    sectionsRemoved :=
      ((a.sections.filter
        (fun s => !b.sections.any (fun t => t.id == s.id))).map
          (fun s => s.label))
    sectionsImproved :=
      a.sections.filterMap (fun s =>
        match b.sections.find? (fun t => t.id == s.id) with
        | some t => if t.seoScore > s.seoScore then some t.label else none
        | none => none)
    sectionsDeclined :=
      a.sections.filterMap (fun s =>
        match b.sections.find? (fun t => t.id == s.id) with
        | some t => if t.seoScore < s.seoScore then some t.label else none
        | none => none)
    overallImprovement :=
      decide (b.overallSeoScore - a.overallSeoScore > 0) }

theorem mapSet_append (m : List (String × DetectedSection)) (k : String)
    (v : DetectedSection) (h : ∀ p ∈ m, p.1 ≠ k) :
    mapSet m k v = m ++ [(k, v)] := by
  induction m with
  | nil => rfl
  | cons q t ih =>
    obtain ⟨k', v'⟩ := q
    rw [mapSet]
    rw [if_neg (h (k', v') (by simp))]
    rw [ih (fun p hp => h p (by simp [hp]))]
    simp

theorem foldl_mapSet_eq (l : List DetectedSection)
    (acc : List (String × DetectedSection))
    (hnd : (l.map (fun s => s.id)).Nodup)
    (hdis : ∀ s ∈ l, ∀ p ∈ acc, p.1 ≠ s.id) :
    l.foldl (fun m s => mapSet m s.id s) acc =
      acc ++ l.map (fun s => (s.id, s)) := by
  induction l generalizing acc with
  | nil => simp
  | cons s t ih =>
    rw [List.foldl_cons,
      mapSet_append acc s.id s (fun p hp => hdis s (by simp) p hp)]
    rw [List.map_cons, List.nodup_cons] at hnd
    rw [ih (acc ++ [(s.id, s)]) hnd.2]
    · simp
    · intro s' hs' p hp
      rcases List.mem_append.mp hp with h1 | h2
      · exact hdis s' (List.mem_cons_of_mem s hs') p h1
      · have hp1 : p.1 = s.id := by
          simp only [List.mem_singleton] at h2
          rw [h2]
        rw [hp1]
        intro hcontra
        exact hnd.1 (hcontra ▸ List.mem_map_of_mem (fun s => s.id) hs')

theorem mkSectionMap_eq (l : List DetectedSection)
    (hnd : (l.map (fun s => s.id)).Nodup) :
    mkSectionMap l = l.map (fun s => (s.id, s)) := by
  rw [mkSectionMap, foldl_mapSet_eq l [] hnd (by simp)]
  simp

theorem any_map_pair (l : List DetectedSection) (k : String) :
    (l.map (fun s => (s.id, s))).any (fun p => p.1 == k) =
      l.any (fun t => t.id == k) := by
  induction l with
  | nil => rfl
  | cons s t ih => simp only [List.map_cons, List.any_cons, ih]

theorem find?_map_pair (l : List DetectedSection) (k : String) :
    Option.map (fun p => p.2)
      ((l.map (fun s => (s.id, s))).find? (fun p => p.1 == k)) =
      l.find? (fun t => t.id == k) := by
  induction l with
  | nil => rfl
  | cons s t ih =>
    simp only [List.map_cons, List.find?]
    by_cases h : (s.id == k) = true
    · simp [h]
    · simp only [show (s.id == k) = false by simpa using h]
      exact ih

theorem mapHas_of_nodup (l : List DetectedSection) (k : String)
    (hnd : (l.map (fun s => s.id)).Nodup) :
    mapHas (mkSectionMap l) k = l.any (fun t => t.id == k) := by
  rw [mkSectionMap_eq l hnd, mapHas]
  exact any_map_pair l k

theorem mapGet_of_nodup (l : List DetectedSection) (k : String)
    (hnd : (l.map (fun s => s.id)).Nodup) :
    mapGet (mkSectionMap l) k = l.find? (fun t => t.id == k) := by
  rw [mkSectionMap_eq l hnd, mapGet]
  exact find?_map_pair l k

theorem find?_isNone_eq_not_any (l : List DetectedSection)
    (p : DetectedSection → Bool) :
    (l.find? p).isNone = !l.any p := by
  induction l with
  | nil => rfl
  | cons s t ih =>
    by_cases h : p s
    · rw [List.find?_cons_of_pos t h]
      simp [h]
    · rw [List.find?_cons_of_neg t (by simpa using h)]
      simp only [List.any_cons, h]
      simpa using ih

theorem foldl_push_filter {α β : Type} (p : α → Bool) (g : α → β)
    (l : List α) (acc : List β) :
    l.foldl (fun acc x => if p x then acc ++ [g x] else acc) acc =
      acc ++ (l.filter p).map g := by
  induction l generalizing acc with
  | nil => simp
  | cons x t ih =>
    rw [List.foldl_cons]
    by_cases h : p x
    · rw [if_pos h, ih]
      simp [h]
    · rw [if_neg h, ih]
      simp [h]

theorem foldl_removed_improved_declined
    (g : String → Option DetectedSection) (l : List DetectedSection)
    (r i d : List String) :
    l.foldl (fun acc s =>
      match g s.id with
      | none => (acc.1 ++ [s.label], acc.2.1, acc.2.2)
      | some section2 =>
        if section2.seoScore > s.seoScore then
          (acc.1, acc.2.1 ++ [section2.label], acc.2.2)
        else if section2.seoScore < s.seoScore then
          (acc.1, acc.2.1, acc.2.2 ++ [section2.label])
        else acc) (r, i, d) =
      (r ++ (l.filter (fun s => (g s.id).isNone)).map (fun s => s.label),
        i ++ l.filterMap (fun s =>
          match g s.id with
          | some t => if t.seoScore > s.seoScore then some t.label else none
          | none => none),
        d ++ l.filterMap (fun s =>
          match g s.id with
          | some t => if t.seoScore < s.seoScore then some t.label else none
          | none => none)) := by
  induction l generalizing r i d with
  | nil => simp
  | cons s t ih =>
    rw [List.foldl_cons]
    cases hg : g s.id with
    | none =>
      simp only [hg, ih, List.filter_cons, List.filterMap_cons, hg,
        Option.isNone_none]
      simp
    | some s2 =>
      by_cases h1 : s2.seoScore > s.seoScore
      · simp only [hg, if_pos h1, ih, List.filter_cons, List.filterMap_cons,
          Option.isNone_some]
        simp [h1, show ¬ s2.seoScore < s.seoScore by omega]
      · by_cases h2 : s2.seoScore < s.seoScore
        · simp only [hg, if_neg h1, if_pos h2, ih, List.filter_cons,
            List.filterMap_cons, Option.isNone_some]
          simp [h1, h2]
        · simp only [hg, if_neg h1, if_neg h2, ih, List.filter_cons,
            List.filterMap_cons, Option.isNone_some]
          simp [h1, h2]

/-- Claim C2: when section ids are unique within each result — the
producer's id contract — `compareAnalyses a b` returns the delta
`b.overallSeoScore - a.overallSeoScore`, classifies ids present only in
`b` as added and only in `a` as removed, classifies ids in both as
improved or declined by strict score comparison (equal scores are
neither), and reports overall improvement exactly when the delta is
positive. -/
theorem claim_C2_compare_analyses (a b : AnalysisResult)
    (ha : (a.sections.map (fun s => s.id)).Nodup)
    (hb : (b.sections.map (fun s => s.id)).Nodup) :
    compareAnalyses a b = compareClaim a b := by
  simp only [compareAnalyses, compareClaim]
  rw [mkSectionMap_eq a.sections ha, mkSectionMap_eq b.sections hb,
    List.foldl_map, List.foldl_map]
  have hhas : ∀ k, mapHas (a.sections.map (fun s => (s.id, s))) k =
      a.sections.any (fun t => t.id == k) := by
    intro k
    rw [← mkSectionMap_eq a.sections ha, mapHas_of_nodup a.sections k ha]
  have hget : ∀ k, mapGet (b.sections.map (fun s => (s.id, s))) k =
      b.sections.find? (fun t => t.id == k) := by
    intro k
    rw [← mkSectionMap_eq b.sections hb, mapGet_of_nodup b.sections k hb]
  simp only [hhas, hget]
  rw [foldl_push_filter (fun s => !a.sections.any (fun t => t.id == s.id))
    (fun s => s.label) b.sections []]
  rw [foldl_removed_improved_declined
    (fun k => b.sections.find? (fun t => t.id == k)) a.sections [] [] []]
  simp only [List.nil_append]
  congr 1
  rw [List.filter_congr]
  intro s _
  rw [find?_isNone_eq_not_any]

/-- Section fixture for the claim C2 witness. -/
def c2section (i lab : String) (score : Int) : DetectedSection :=
  { id := i, type := "hero", label := lab,
    position := { x := 0, y := 0, width := 10, height := 10 },
    currentContent := none, suggestedContent := "content",
    contentVariants := none, seoScore := score, keywords := [],
    characterCount := 7, readabilityScore := none, sentimentScore := none,
    brandVoiceMatch := none, technicalSeoIssues := none,
    accessibilityIssues := none }

/-- Earlier analysis for the claim C2 witness: section `a` at 50, `b` at 80. -/
def c2result1 : AnalysisResult :=
  { sections := [c2section "a" "Hero A" 50, c2section "b" "Hero B" 80],
    overallSeoScore := 55, recommendations := [],
    pageType := "Landing Page", imageUrl := "blob:1", imageFileName := none,
    timestamp := none, technicalSeo := none, competitorInsights := none,
    brandVoiceAnalysis := none, performanceMetrics := none }

/-- Later analysis for the claim C2 witness: section `a` rises to 70, `b`
falls to 60. -/
def c2result2 : AnalysisResult :=
  { sections := [c2section "a" "Hero A" 70, c2section "b" "Hero B" 60],
    overallSeoScore := 65, recommendations := [],
    pageType := "Landing Page", imageUrl := "blob:2", imageFileName := none,
    timestamp := none, technicalSeo := none, competitorInsights := none,
    brandVoiceAnalysis := none, performanceMetrics := none }

/-- Witness for claim C2 at the two concrete analyses above. -/
theorem claim_C2_compare_analyses_witness :
    (c2result1.sections.map (fun s => s.id)).Nodup ∧
    (c2result2.sections.map (fun s => s.id)).Nodup ∧
    compareAnalyses c2result1 c2result2 = compareClaim c2result1 c2result2 :=
  ⟨by decide, by decide,
    claim_C2_compare_analyses c2result1 c2result2 (by decide) (by decide)⟩

/-! ## JSON values, `JSON.stringify` and `JSON.parse`

`exportToJSON` is `JSON.stringify(analysis, null, 2)` and the
import/storage paths use one-argument `JSON.stringify` plus
`JSON.parse`.  Both are modelled over a JSON value type: numbers are
the integers the program stores in them, object fields keep their
insertion order, and an absent optional field is an absent member.
The printer below follows the ECMA-262 serialization with a `gap`
string (empty for the one-argument form, two spaces for indent 2);
the parser is a character-level recursive-descent reader with a fuel
argument that makes the recursion structural. -/

/-- JSON value. -/
inductive JVal where
  | jnull : JVal
  | jbool : Bool → JVal
  | jnum : Int → JVal
  | jstr : String → JVal
  | jarr : List JVal → JVal
  | jobj : List (String × JVal) → JVal
deriving Repr

/-- Whitespace accepted between JSON tokens. -/
def isWsChar (c : Char) : Bool :=
  c == ' ' || c == '\n' || c == '\t' || c == '\r'

/-- Decimal digit character for a value below ten. -/
def digitChar : Nat → Char
  | 0 => '0' | 1 => '1' | 2 => '2' | 3 => '3' | 4 => '4'
  | 5 => '5' | 6 => '6' | 7 => '7' | 8 => '8' | _ => '9'

/-- Lower-case hexadecimal digit character for a value below sixteen. -/
def hexDigitChar : Nat → Char
  | 0 => '0' | 1 => '1' | 2 => '2' | 3 => '3' | 4 => '4'
  | 5 => '5' | 6 => '6' | 7 => '7' | 8 => '8' | 9 => '9'
  | 10 => 'a' | 11 => 'b' | 12 => 'c' | 13 => 'd' | 14 => 'e' | _ => 'f'

/-- Decimal digits of `n`, most significant first, prepended to `acc`;
the fuel argument only bounds the recursion and any fuel above `n` is
enough. -/
def natToCharsAux : Nat → Nat → List Char → List Char
  | 0, _, acc => acc
  | fuel + 1, n, acc =>
    if n < 10 then digitChar n :: acc
    else natToCharsAux fuel (n / 10) (digitChar (n % 10) :: acc)

/-- Decimal digits of a natural number, most significant first. -/
def natToChars (n : Nat) : List Char :=
  natToCharsAux (n + 1) n []

/-- Serialization of an integer JSON number. -/
def intToChars (n : Int) : List Char :=
  if n < 0 then '-' :: natToChars n.natAbs else natToChars n.natAbs

/-- Serialization of one string character: quote, backslash and the five
named controls get two-character escapes, any other control becomes a
`\u00xx` escape, everything else is emitted as itself. -/
def escapeChar (c : Char) : List Char :=
  if c = '"' then ['\\', '"']
  else if c = '\\' then ['\\', '\\']
  else if c = '\x08' then ['\\', 'b']
  else if c = '\x09' then ['\\', 't']
  else if c = '\x0a' then ['\\', 'n']
  else if c = '\x0c' then ['\\', 'f']
  else if c = '\x0d' then ['\\', 'r']
  else if c.toNat < 32 then
    ['\\', 'u', '0', '0', hexDigitChar (c.toNat / 16),
      hexDigitChar (c.toNat % 16)]
  else [c]

/-- Serialization of the characters of a string body. -/
def escapeChars : List Char → List Char
  | [] => []
  | c :: cs => escapeChar c ++ escapeChars cs

/-- Serialization of a JSON string, quotes included. -/
def printString (s : String) : List Char :=
  '"' :: (escapeChars s.data ++ ['"'])

/-- Line break plus indentation, or nothing in compact (empty gap) mode. -/
def nlIndent (gap indent : List Char) : List Char :=
  if gap = [] then [] else '\n' :: indent

mutual

/-- Serialization of a JSON value at the given indentation. -/
def printVal (gap indent : List Char) : JVal → List Char
  | .jnull => ['n', 'u', 'l', 'l']
  | .jbool true => ['t', 'r', 'u', 'e']
  | .jbool false => ['f', 'a', 'l', 's', 'e']
  | .jnum n => intToChars n
  | .jstr s => printString s
  | .jarr [] => ['[', ']']
  | .jarr (v :: vs) => '[' :: printArrElems gap indent (v :: vs)
  | .jobj [] => ['\x7b', '\x7d']
  | .jobj (f :: fs) => '\x7b' :: printObjElems gap indent (f :: fs)

/-- Elements of a non-empty array after the opening bracket. -/
def printArrElems (gap indent : List Char) : List JVal → List Char
  | [] => [']']
  | v :: vs =>
    nlIndent gap (indent ++ gap) ++ printVal gap (indent ++ gap) v ++
      printArrTail gap indent vs

/-- Continuation of an array after one element: either the closing
bracket or a comma and the remaining elements. -/
def printArrTail (gap indent : List Char) : List JVal → List Char
  | [] => nlIndent gap indent ++ [']']
  | v :: vs =>
    ',' :: (nlIndent gap (indent ++ gap) ++ printVal gap (indent ++ gap) v ++
      printArrTail gap indent vs)

/-- Serialization of one object member: quoted key, colon (with a space
after it unless compact), value. -/
def printField (gap indent : List Char) : String × JVal → List Char
  | (k, v) =>
    printString k ++
      ':' :: ((if gap = [] then [] else [' ']) ++ printVal gap indent v)

/-- Members of a non-empty object after the opening brace. -/
def printObjElems (gap indent : List Char) : List (String × JVal) → List Char
  | [] => ['\x7d']
  | f :: fs =>
    nlIndent gap (indent ++ gap) ++ printField gap (indent ++ gap) f ++
      printObjTail gap indent fs

/-- Continuation of an object after one member. -/
def printObjTail (gap indent : List Char) : List (String × JVal) → List Char
  | [] => nlIndent gap indent ++ ['\x7d']
  | f :: fs =>
    ',' :: (nlIndent gap (indent ++ gap) ++ printField gap (indent ++ gap) f ++
      printObjTail gap indent fs)

end

/-- One-argument `JSON.stringify`: no gap, no line breaks. -/
def stringifyCompact (v : JVal) : String :=
  String.mk (printVal [] [] v)

/-- `JSON.stringify(·, null, 2)`: two-space gap. -/
def stringifyIndent2 (v : JVal) : String :=
  String.mk (printVal [' ', ' '] [] v)

/-- Drop leading JSON whitespace. -/
def skipWs : List Char → List Char
  | [] => []
  | c :: cs => if isWsChar c then skipWs cs else c :: cs

/-- Numeric value of a hexadecimal digit character, either case. -/
def hexVal? (c : Char) : Option Nat :=
  if '0' ≤ c ∧ c ≤ '9' then some (c.toNat - 48)
  else if 'a' ≤ c ∧ c ≤ 'f' then some (c.toNat - 87)
  else if 'A' ≤ c ∧ c ≤ 'F' then some (c.toNat - 55)
  else none

/-- Character denoted by a two-character escape, `none` for an invalid
escape. -/
def escDecode (e : Char) : Option Char :=
  if e = '"' then some '"'
  else if e = '\\' then some '\\'
  else if e = '/' then some '/'
  else if e = 'b' then some '\x08'
  else if e = 't' then some '\x09'
  else if e = 'n' then some '\x0a'
  else if e = 'f' then some '\x0c'
  else if e = 'r' then some '\x0d'
  else none

/-- Body of a JSON string after the opening quote: characters until the
closing quote, decoding escapes; raw controls and bad escapes are
rejected.  (A `\uXXXX` escape that does not denote a Unicode scalar
value maps through `Char.ofNat` to the null character.) -/
def parseStrChars : List Char → Option (List Char × List Char)
  | [] => none
  | c :: cs =>
    if c = '"' then some ([], cs)
    else if c = '\\' then
      match cs with
      | [] => none
      | e :: cs2 =>
        if e = 'u' then
          match cs2 with
          | h1 :: h2 :: h3 :: h4 :: cs3 =>
            (match hexVal? h1, hexVal? h2, hexVal? h3, hexVal? h4 with
              | some a, some b, some x, some d =>
                (parseStrChars cs3).map
                  (fun r =>
                    (Char.ofNat (((a * 16 + b) * 16 + x) * 16 + d) :: r.1,
                      r.2))
              | _, _, _, _ => none)
          | _ => none
        else
          match escDecode e with
          | some d => (parseStrChars cs2).map (fun r => (d :: r.1, r.2))
          | none => none
    else if c.toNat < 32 then none
    else (parseStrChars cs).map (fun r => (c :: r.1, r.2))

/-- Longest digit prefix and the remainder. -/
def spanDigits : List Char → List Char × List Char
  | [] => ([], [])
  | c :: cs =>
    if c.isDigit then
      let r := spanDigits cs
      (c :: r.1, r.2)
    else ([], c :: cs)

/-- Numeric value of a digit string. -/
def digitsToNat (l : List Char) : Nat :=
  l.foldl (fun a c => a * 10 + (c.toNat - 48)) 0

mutual

/-- Reader of one JSON value; the fuel bounds the nesting of reader
calls, and `parseJson` supplies enough for any input it accepts. -/
def parseVal : Nat → List Char → Option (JVal × List Char)
  | 0, _ => none
  | fuel + 1, input =>
    match skipWs input with
    | [] => none
    | c :: rest =>
      if c.isDigit then
        match spanDigits (c :: rest) with
        | (ds, rest2) => some (.jnum (digitsToNat ds), rest2)
      else
        match c :: rest with
        | 'n' :: 'u' :: 'l' :: 'l' :: rest1 => some (.jnull, rest1)
        | 't' :: 'r' :: 'u' :: 'e' :: rest1 => some (.jbool true, rest1)
        | 'f' :: 'a' :: 'l' :: 's' :: 'e' :: rest1 =>
          some (.jbool false, rest1)
        | '"' :: rest1 =>
          (match parseStrChars rest1 with
            | some (cs, rest2) => some (.jstr (String.mk cs), rest2)
            | none => none)
        | '[' :: rest1 =>
          (match skipWs rest1 with
            | ']' :: rest2 => some (.jarr [], rest2)
            | _ =>
              match parseArrItems fuel rest1 with
              | some (vs, rest2) => some (.jarr vs, rest2)
              | none => none)
        | '\x7b' :: rest1 =>
          (match skipWs rest1 with
            | '\x7d' :: rest2 => some (.jobj [], rest2)
            | _ =>
              match parseObjItems fuel rest1 with
              | some (fs, rest2) => some (.jobj fs, rest2)
              | none => none)
        | '-' :: rest1 =>
          (match spanDigits rest1 with
            | ([], _) => none
            | (ds, rest2) => some (.jnum (-(digitsToNat ds : Int)), rest2))
        | _ => none

/-- Reader of the elements of a non-empty array, positioned after the
opening bracket or after a comma. -/
def parseArrItems : Nat → List Char → Option (List JVal × List Char)
  | 0, _ => none
  | fuel + 1, input =>
    match parseVal fuel input with
    | none => none
    | some (v, rest) =>
      match skipWs rest with
      | ',' :: rest2 =>
        (match parseArrItems fuel rest2 with
          | some (vs, rest3) => some (v :: vs, rest3)
          | none => none)
      | ']' :: rest2 => some ([v], rest2)
      | _ => none

/-- Reader of the members of a non-empty object, positioned after the
opening brace or after a comma. -/
def parseObjItems : Nat → List Char →
    Option (List (String × JVal) × List Char)
  | 0, _ => none
  | fuel + 1, input =>
    match skipWs input with
    | '"' :: rest =>
      (match parseStrChars rest with
        | none => none
        | some (k, rest2) =>
          match skipWs rest2 with
          | ':' :: rest3 =>
            (match parseVal fuel rest3 with
              | none => none
              | some (v, rest4) =>
                match skipWs rest4 with
                | ',' :: rest5 =>
                  (match parseObjItems fuel rest5 with
                    | some (fs, rest6) =>
                      some ((String.mk k, v) :: fs, rest6)
                    | none => none)
                | '\x7d' :: rest5 => some ([(String.mk k, v)], rest5)
                | _ => none)
          | _ => none)
    | _ => none

end

/-- Model of `JSON.parse`: read one value, allow trailing whitespace
only.  The fuel `2 * length + 1` is enough for every serialized value,
as proved below. -/
def parseJson (s : String) : Option JVal :=
  match parseVal (2 * s.length + 1) s.data with
  | some (v, rest) => if skipWs rest = [] then some v else none
  | none => none

mutual

/-- Structural size of a JSON value, used for induction. -/
def jsize : JVal → Nat
  | .jnull => 1
  | .jbool _ => 1
  | .jnum _ => 1
  | .jstr _ => 1
  | .jarr l => 1 + jsizeArr l
  | .jobj fs => 1 + jsizeObj fs

/-- Structural size of an array body. -/
def jsizeArr : List JVal → Nat
  | [] => 1
  | v :: vs => 1 + jsize v + jsizeArr vs

/-- Structural size of an object body. -/
def jsizeObj : List (String × JVal) → Nat
  | [] => 1
  | (_, v) :: fs => 1 + jsize v + jsizeObj fs

end

/-! ### Round trip of the JSON printer through the JSON reader -/

/-- List of whitespace characters only. -/
def WsOnly (l : List Char) : Prop := ∀ c ∈ l, isWsChar c = true

/-- True when the list does not start with a decimal digit. -/
def headNotDigit : List Char → Bool
  | [] => true
  | c :: _ => !c.isDigit

theorem wsOnly_nil : WsOnly [] := by
  intro c hc
  cases hc

theorem wsOnly_append {a b : List Char} (ha : WsOnly a) (hb : WsOnly b) :
    WsOnly (a ++ b) := by
  intro c hc
  rcases List.mem_append.mp hc with h | h
  · exact ha c h
  · exact hb c h

theorem skipWs_ws_append (w x : List Char) (hw : WsOnly w) :
    skipWs (w ++ x) = skipWs x := by
  induction w with
  | nil => rfl
  | cons c t ih =>
    rw [List.cons_append, skipWs, if_pos (hw c (by simp))]
    exact ih (fun d hd => hw d (by simp [hd]))

theorem skipWs_not_ws (c : Char) (t : List Char) (h : isWsChar c = false) :
    skipWs (c :: t) = c :: t := by
  rw [skipWs, if_neg (by simp [h])]

theorem nlIndent_wsOnly (gap indent : List Char) (hi : WsOnly indent) :
    WsOnly (nlIndent gap indent) := by
  rw [nlIndent]
  by_cases h : gap = []
  · rw [if_pos h]
    exact wsOnly_nil
  · rw [if_neg h]
    intro c hc
    simp only [List.mem_cons] at hc
    rcases hc with rfl | hc
    · decide
    · exact hi c hc

theorem digitChar_isDigit : ∀ m, m < 10 → (digitChar m).isDigit = true := by
  decide

theorem digitChar_not_ws : ∀ m, m < 10 → isWsChar (digitChar m) = false := by
  decide

theorem digitChar_toNat : ∀ m, m < 10 → (digitChar m).toNat - 48 = m := by
  decide

theorem digitChar_ne_rbracket : ∀ m, m < 10 → digitChar m ≠ ']' := by
  decide

theorem digitChar_ne_rbrace : ∀ m, m < 10 → digitChar m ≠ '\x7d' := by
  decide

theorem natToCharsAux_fuel (n : Nat) : ∀ f1 f2 acc, n < f1 → n < f2 →
    natToCharsAux f1 n acc = natToCharsAux f2 n acc := by
  induction n using Nat.strong_induction_on with
  | _ n ih =>
    intro f1 f2 acc h1 h2
    match f1, f2 with
    | g1 + 1, g2 + 1 =>
      by_cases hn : n < 10
      · rw [natToCharsAux, natToCharsAux, if_pos hn, if_pos hn]
      · rw [natToCharsAux, natToCharsAux, if_neg hn, if_neg hn]
        have hlt : n / 10 < n := Nat.div_lt_self (by omega) (by omega)
        exact ih (n / 10) hlt g1 g2 _ (by omega) (by omega)

theorem natToCharsAux_acc (n : Nat) : ∀ f acc, n < f →
    natToCharsAux f n acc = natToChars n ++ acc := by
  induction n using Nat.strong_induction_on with
  | _ n ih =>
    intro f acc hf
    match f with
    | g + 1 =>
      by_cases hn : n < 10
      · rw [natToCharsAux, if_pos hn, natToChars, natToCharsAux, if_pos hn]
        rfl
      · have hlt : n / 10 < n := Nat.div_lt_self (by omega) (by omega)
        have h2 : natToChars n =
            natToChars (n / 10) ++ [digitChar (n % 10)] := by
          rw [natToChars, natToCharsAux, if_neg hn]
          exact ih (n / 10) hlt n (digitChar (n % 10) :: []) (by omega)
        rw [natToCharsAux, if_neg hn,
          ih (n / 10) hlt g (digitChar (n % 10) :: acc) (by omega), h2]
        simp

theorem natToChars_eq_append (n : Nat) (hn : ¬ n < 10) :
    natToChars n = natToChars (n / 10) ++ [digitChar (n % 10)] := by
  have hlt : n / 10 < n := Nat.div_lt_self (by omega) (by omega)
  rw [natToChars, natToCharsAux, if_neg hn]
  exact natToCharsAux_acc (n / 10) n (digitChar (n % 10) :: []) (by omega)

theorem natToChars_lt_ten (n : Nat) (hn : n < 10) :
    natToChars n = [digitChar n] := by
  rw [natToChars, natToCharsAux, if_pos hn]

theorem natToChars_all_digits (n : Nat) :
    ∀ c ∈ natToChars n, c.isDigit = true := by
  induction n using Nat.strong_induction_on with
  | _ n ih =>
    by_cases hn : n < 10
    · rw [natToChars_lt_ten n hn]
      intro c hc
      simp only [List.mem_singleton] at hc
      rw [hc]
      exact digitChar_isDigit n hn
    · rw [natToChars_eq_append n hn]
      intro c hc
      rcases List.mem_append.mp hc with h | h
      · exact ih (n / 10) (Nat.div_lt_self (by omega) (by omega)) c h
      · simp only [List.mem_singleton] at h
        rw [h]
        exact digitChar_isDigit (n % 10) (Nat.mod_lt n (by omega))

theorem natToChars_head (n : Nat) :
    ∃ m t, m < 10 ∧ natToChars n = digitChar m :: t := by
  induction n using Nat.strong_induction_on with
  | _ n ih =>
    by_cases hn : n < 10
    · exact ⟨n, [], hn, natToChars_lt_ten n hn⟩
    · obtain ⟨m, t, hm, ht⟩ :=
        ih (n / 10) (Nat.div_lt_self (by omega) (by omega))
      exact ⟨m, t ++ [digitChar (n % 10)], hm, by
        rw [natToChars_eq_append n hn, ht]
        rfl⟩

theorem digitsToNat_natToChars (n : Nat) :
    digitsToNat (natToChars n) = n := by
  induction n using Nat.strong_induction_on with
  | _ n ih =>
    by_cases hn : n < 10
    · rw [natToChars_lt_ten n hn, digitsToNat, List.foldl_cons,
        List.foldl_nil, digitChar_toNat n hn]
      omega
    · rw [natToChars_eq_append n hn, digitsToNat, List.foldl_append]
      have hrec := ih (n / 10) (Nat.div_lt_self (by omega) (by omega))
      rw [digitsToNat] at hrec
      rw [hrec, List.foldl_cons, List.foldl_nil,
        digitChar_toNat (n % 10) (Nat.mod_lt n (by omega))]
      omega

theorem char_ofNat_toNat (c : Char) : Char.ofNat c.toNat = c := by
  obtain ⟨⟨bv⟩, valid⟩ := c
  have hv : Nat.isValidChar (Char.toNat ⟨⟨bv⟩, valid⟩) := valid
  rw [Char.ofNat, dif_pos hv]
  apply Char.eq_of_val_eq
  show UInt32.mk (BitVec.ofNatLt _ _) = ⟨bv⟩
  apply congrArg
  apply BitVec.eq_of_toNat_eq
  simp [BitVec.toNat_ofNatLt]
  rfl

theorem hexVal_hexDigitChar : ∀ m, m < 16 →
    hexVal? (hexDigitChar m) = some m := by
  decide

theorem parseStrChars_backslash (e d : Char) (he : escDecode e = some d)
    (he2 : e ≠ 'u') (x : List Char) :
    parseStrChars ('\\' :: e :: x) =
      (parseStrChars x).map (fun r => (d :: r.1, r.2)) := by
  rw [parseStrChars.eq_def]
  simp [he, he2]

theorem parseStrChars_u_escape (m : Nat) (hm : m < 32) (x : List Char) :
    parseStrChars ('\\' :: 'u' :: '0' :: '0' ::
        hexDigitChar (m / 16) :: hexDigitChar (m % 16) :: x) =
      (parseStrChars x).map (fun r => (Char.ofNat m :: r.1, r.2)) := by
  rw [parseStrChars.eq_def]
  have h0 : hexVal? '0' = some 0 := by decide
  have hx : hexVal? (hexDigitChar (m / 16)) = some (m / 16) :=
    hexVal_hexDigitChar _ (by omega)
  have hy : hexVal? (hexDigitChar (m % 16)) = some (m % 16) :=
    hexVal_hexDigitChar _ (by omega)
  have hcode : m / 16 * 16 + m % 16 = m := by omega
  simp [h0, hx, hy, hcode]

theorem parseStrChars_escapeChars (l rest : List Char) :
    parseStrChars (escapeChars l ++ ('"' :: rest)) = some (l, rest) := by
  induction l with
  | nil =>
    rw [escapeChars, List.nil_append, parseStrChars.eq_def]
    simp
  | cons c cs ih =>
    rw [escapeChars, List.append_assoc, escapeChar]
    by_cases h1 : c = '"'
    · rw [if_pos h1, List.cons_append, List.cons_append, List.nil_append,
        parseStrChars_backslash '"' '"' (by decide) (by decide), ih, h1]
      rfl
    rw [if_neg h1]
    by_cases h2 : c = '\\'
    · rw [if_pos h2, List.cons_append, List.cons_append, List.nil_append,
        parseStrChars_backslash '\\' '\\' (by decide) (by decide), ih, h2]
      rfl
    rw [if_neg h2]
    by_cases h3 : c = '\x08'
    · rw [if_pos h3, List.cons_append, List.cons_append, List.nil_append,
        parseStrChars_backslash 'b' '\x08' (by decide) (by decide), ih, h3]
      rfl
    rw [if_neg h3]
    by_cases h4 : c = '\x09'
    · rw [if_pos h4, List.cons_append, List.cons_append, List.nil_append,
        parseStrChars_backslash 't' '\x09' (by decide) (by decide), ih, h4]
      rfl
    rw [if_neg h4]
    by_cases h5 : c = '\x0a'
    · rw [if_pos h5, List.cons_append, List.cons_append, List.nil_append,
        parseStrChars_backslash 'n' '\x0a' (by decide) (by decide), ih, h5]
      rfl
    rw [if_neg h5]
    by_cases h6 : c = '\x0c'
    · rw [if_pos h6, List.cons_append, List.cons_append, List.nil_append,
        parseStrChars_backslash 'f' '\x0c' (by decide) (by decide), ih, h6]
      rfl
    rw [if_neg h6]
    by_cases h7 : c = '\x0d'
    · rw [if_pos h7, List.cons_append, List.cons_append, List.nil_append,
        parseStrChars_backslash 'r' '\x0d' (by decide) (by decide), ih, h7]
      rfl
    rw [if_neg h7]
    by_cases h8 : c.toNat < 32
    · rw [if_pos h8]
      show parseStrChars ('\\' :: 'u' :: '0' :: '0' ::
        hexDigitChar (c.toNat / 16) :: hexDigitChar (c.toNat % 16) ::
          (escapeChars cs ++ ('"' :: rest))) = _
      rw [parseStrChars_u_escape c.toNat h8, ih, char_ofNat_toNat]
      rfl
    · rw [if_neg h8, List.cons_append, List.nil_append, parseStrChars.eq_def]
      simp [h1, h2, h8, ih]

theorem spanDigits_append (ds rest : List Char)
    (hds : ∀ c ∈ ds, c.isDigit = true) (hr : headNotDigit rest = true) :
    spanDigits (ds ++ rest) = (ds, rest) := by
  induction ds with
  | nil =>
    cases rest with
    | nil => rfl
    | cons c t =>
      rw [headNotDigit, Bool.not_eq_eq_eq_not] at hr
      simp only [List.nil_append, spanDigits, hr]
      rfl
  | cons c t ih =>
    rw [List.cons_append, spanDigits, if_pos (hds c (by simp)),
      ih (fun d hd => hds d (by simp [hd])) ]

theorem stringMk_data (s : String) : String.mk s.data = s := by
  cases s
  rfl

theorem printVal_head (gap ind : List Char) (v : JVal) :
    ∃ c t, printVal gap ind v = c :: t ∧ isWsChar c = false ∧
      c ≠ ']' ∧ c ≠ '\x7d' := by
  cases v with
  | jnull => exact ⟨'n', _, rfl, by decide, by decide, by decide⟩
  | jbool b =>
    cases b
    · exact ⟨'f', _, rfl, by decide, by decide, by decide⟩
    · exact ⟨'t', _, rfl, by decide, by decide, by decide⟩
  | jnum n =>
    show ∃ c t, intToChars n = c :: t ∧ _
    rw [intToChars]
    by_cases hn : n < 0
    · exact ⟨'-', _, by rw [if_pos hn], by decide, by decide, by decide⟩
    · rw [if_neg hn]
      obtain ⟨m, t, hm, ht⟩ := natToChars_head n.natAbs
      exact ⟨digitChar m, t, ht, digitChar_not_ws m hm,
        digitChar_ne_rbracket m hm, digitChar_ne_rbrace m hm⟩
  | jstr s => exact ⟨'"', _, rfl, by decide, by decide, by decide⟩
  | jarr l =>
    cases l with
    | nil => exact ⟨'[', _, rfl, by decide, by decide, by decide⟩
    | cons v vs => exact ⟨'[', _, rfl, by decide, by decide, by decide⟩
  | jobj l =>
    cases l with
    | nil => exact ⟨'\x7b', _, rfl, by decide, by decide, by decide⟩
    | cons f fs => exact ⟨'\x7b', _, rfl, by decide, by decide, by decide⟩

theorem printArrTail_head (gap ind : List Char) (l : List JVal) :
    ∃ c t, printArrTail gap ind l = c :: t ∧ c.isDigit = false := by
  cases l with
  | nil =>
    rw [printArrTail, nlIndent]
    by_cases h : gap = []
    · exact ⟨']', [], by rw [if_pos h]; rfl, by decide⟩
    · exact ⟨'\n', ind ++ [']'], by rw [if_neg h]; rfl, by decide⟩
  | cons v vs => exact ⟨',', _, rfl, by decide⟩

theorem printObjTail_head (gap ind : List Char) (l : List (String × JVal)) :
    ∃ c t, printObjTail gap ind l = c :: t ∧ c.isDigit = false := by
  cases l with
  | nil =>
    rw [printObjTail, nlIndent]
    by_cases h : gap = []
    · exact ⟨'\x7d', [], by rw [if_pos h]; rfl, by decide⟩
    · exact ⟨'\n', ind ++ ['\x7d'], by rw [if_neg h]; rfl, by decide⟩
  | cons f fs => exact ⟨',', _, rfl, by decide⟩

theorem jsize_pos (v : JVal) : 1 ≤ jsize v := by
  cases v <;> simp [jsize]

theorem jsizeArr_pos (l : List JVal) : 1 ≤ jsizeArr l := by
  cases l <;> simp [jsizeArr]
  omega

theorem jsizeObj_pos (l : List (String × JVal)) : 1 ≤ jsizeObj l := by
  cases l with
  | nil => simp [jsizeObj]
  | cons f fs =>
    obtain ⟨k, v⟩ := f
    simp [jsizeObj]
    omega

/-- Reading ignores whitespace in front of a value. -/
theorem parseVal_ws (f : Nat) (w rest : List Char) (hw : WsOnly w) :
    parseVal (f + 1) (w ++ rest) = parseVal (f + 1) rest := by
  simp only [parseVal]
  rw [skipWs_ws_append w rest hw]

/-- Reading a serialized natural number followed by a non-digit. -/
theorem parseVal_digits (f : Nat) (n : Nat) (rest : List Char)
    (hrest : headNotDigit rest = true) :
    parseVal (f + 1) (natToChars n ++ rest) = some (.jnum (n : Int), rest) := by
  obtain ⟨m, t, hm, ht⟩ := natToChars_head n
  simp only [parseVal]
  rw [ht, List.cons_append, skipWs_not_ws _ _ (digitChar_not_ws m hm)]
  simp only [digitChar_isDigit m hm]
  rw [← List.cons_append, ← ht,
    spanDigits_append _ _ (natToChars_all_digits n) hrest]
  rw [ht]
  simp only [if_true]
  show some (JVal.jnum (digitsToNat (digitChar m :: t) : Int), rest) =
    some (JVal.jnum (n : Int), rest)
  rw [← ht, digitsToNat_natToChars]

/-- Round-trip statement for one value: its serialization followed by any
non-digit-starting remainder reads back as exactly that value, under any
sufficient fuel. -/
def RoundVal (gap : List Char) (v : JVal) : Prop :=
  ∀ ind, WsOnly ind → ∀ rest, headNotDigit rest = true →
    ∀ f, 2 * (printVal gap ind v ++ rest).length + 1 ≤ f →
      parseVal f (printVal gap ind v ++ rest) = some (v, rest)

/-- Round-trip statement for the body of a non-empty array. -/
def RoundArr (gap : List Char) (l : List JVal) : Prop :=
  l ≠ [] → ∀ ind, WsOnly ind → ∀ rest, headNotDigit rest = true →
    ∀ f, 2 * (printArrElems gap ind l ++ rest).length + 2 ≤ f →
      parseArrItems f (printArrElems gap ind l ++ rest) = some (l, rest)

/-- Round-trip statement for the body of a non-empty object. -/
def RoundObj (gap : List Char) (l : List (String × JVal)) : Prop :=
  l ≠ [] → ∀ ind, WsOnly ind → ∀ rest, headNotDigit rest = true →
    ∀ f, 2 * (printObjElems gap ind l ++ rest).length + 2 ≤ f →
      parseObjItems f (printObjElems gap ind l ++ rest) = some (l, rest)

theorem roundVal_jnull (gap : List Char) : RoundVal gap .jnull := by
  intro ind hind rest hrest f hf
  match f with
  | 0 => exact absurd hf (by omega)
  | f' + 1 =>
    show parseVal (f' + 1) ('n' :: 'u' :: 'l' :: 'l' :: rest) =
      some (.jnull, rest)
    simp only [parseVal]
    rw [skipWs_not_ws _ _ (by decide)]
    rfl

theorem roundVal_jbool (gap : List Char) (b : Bool) :
    RoundVal gap (.jbool b) := by
  intro ind hind rest hrest f hf
  match f with
  | 0 => exact absurd hf (by omega)
  | f' + 1 =>
    cases b
    · show parseVal (f' + 1) ('f' :: 'a' :: 'l' :: 's' :: 'e' :: rest) =
        some (.jbool false, rest)
      simp only [parseVal]
      rw [skipWs_not_ws _ _ (by decide)]
      rfl
    · show parseVal (f' + 1) ('t' :: 'r' :: 'u' :: 'e' :: rest) =
        some (.jbool true, rest)
      simp only [parseVal]
      rw [skipWs_not_ws _ _ (by decide)]
      rfl

theorem roundVal_jnum (gap : List Char) (n : Int) :
    RoundVal gap (.jnum n) := by
  intro ind hind rest hrest f hf
  show parseVal f (intToChars n ++ rest) = some (.jnum n, rest)
  match f with
  | 0 => exact absurd hf (by omega)
  | f' + 1 =>
    rw [intToChars]
    by_cases hn : n < 0
    · rw [if_pos hn, List.cons_append]
      simp only [parseVal]
      rw [skipWs_not_ws _ _ (by decide)]
      simp only [show ('-' : Char).isDigit = false from by decide]
      rw [spanDigits_append _ _ (natToChars_all_digits _) hrest]
      obtain ⟨m, t, hm, ht⟩ := natToChars_head n.natAbs
      rw [ht]
      show some (JVal.jnum (-(digitsToNat (digitChar m :: t) : Int)), rest) =
        some (JVal.jnum n, rest)
      rw [← ht, digitsToNat_natToChars]
      have he : (-(n.natAbs : Int)) = n := by omega
      rw [he]
    · rw [if_neg hn, parseVal_digits f' n.natAbs rest hrest]
      have he : ((n.natAbs : Int)) = n := by omega
      rw [he]

theorem roundVal_jstr (gap : List Char) (s : String) :
    RoundVal gap (.jstr s) := by
  intro ind hind rest hrest f hf
  match f with
  | 0 => exact absurd hf (by omega)
  | f' + 1 =>
    show parseVal (f' + 1)
      (('"' :: (escapeChars s.data ++ ['"'])) ++ rest) = some (.jstr s, rest)
    rw [List.cons_append, List.append_assoc, List.singleton_append]
    simp only [parseVal]
    rw [skipWs_not_ws _ _ (by decide)]
    simp only [show ('"' : Char).isDigit = false from by decide]
    rw [parseStrChars_escapeChars s.data rest]
    show some (JVal.jstr (String.mk s.data), rest) = some (JVal.jstr s, rest)
    rw [stringMk_data]

theorem roundVal_jarr_nil (gap : List Char) : RoundVal gap (.jarr []) := by
  intro ind hind rest hrest f hf
  match f with
  | 0 => exact absurd hf (by omega)
  | f' + 1 =>
    show parseVal (f' + 1) ('[' :: ']' :: rest) = some (.jarr [], rest)
    simp only [parseVal]
    rw [skipWs_not_ws _ _ (by decide)]
    simp only [show ('[' : Char).isDigit = false from by decide]
    rw [skipWs_not_ws _ _ (by decide)]
    rfl

theorem roundVal_jobj_nil (gap : List Char) : RoundVal gap (.jobj []) := by
  intro ind hind rest hrest f hf
  match f with
  | 0 => exact absurd hf (by omega)
  | f' + 1 =>
    show parseVal (f' + 1) ('\x7b' :: '\x7d' :: rest) = some (.jobj [], rest)
    simp only [parseVal]
    rw [skipWs_not_ws _ _ (by decide)]
    simp only [show ('\x7b' : Char).isDigit = false from by decide]
    rw [skipWs_not_ws _ _ (by decide)]
    rfl

theorem roundVal_jarr_cons (gap : List Char) (hg : WsOnly gap) (v : JVal)
    (vs : List JVal) (ha : RoundArr gap (v :: vs)) :
    RoundVal gap (.jarr (v :: vs)) := by
  intro ind hind rest hrest f hf
  match f with
  | 0 => exact absurd hf (by omega)
  | f' + 1 =>
    show parseVal (f' + 1) (('[' :: printArrElems gap ind (v :: vs)) ++ rest) =
      some (.jarr (v :: vs), rest)
    rw [List.cons_append]
    simp only [parseVal]
    rw [skipWs_not_ws _ _ (by decide)]
    simp only [show ('[' : Char).isDigit = false from by decide]
    have hElems : printArrElems gap ind (v :: vs) ++ rest =
        nlIndent gap (ind ++ gap) ++ (printVal gap (ind ++ gap) v ++
          (printArrTail gap ind vs ++ rest)) := by
      simp only [printArrElems, List.append_assoc]
    obtain ⟨c0, t0, hpv, hc0ws, hc0b, hc0r⟩ := printVal_head gap (ind ++ gap) v
    have hskip : skipWs (printArrElems gap ind (v :: vs) ++ rest) =
        c0 :: (t0 ++ (printArrTail gap ind vs ++ rest)) := by
      rw [hElems,
        skipWs_ws_append _ _ (nlIndent_wsOnly gap (ind ++ gap)
          (wsOnly_append hind hg)),
        hpv, List.cons_append, skipWs_not_ws _ _ hc0ws]
    rw [hskip]
    have hf2 : 2 * (('[' :: printArrElems gap ind (v :: vs)) ++ rest).length +
        1 ≤ f' + 1 := hf
    have harith : 2 * (printArrElems gap ind (v :: vs) ++ rest).length + 2 ≤
        f' := by
      simp only [List.cons_append, List.length_cons] at hf2
      omega
    have hpa := ha (by simp) ind hind rest hrest f' harith
    simp only [Bool.false_eq_true, if_false]
    split
    · rename_i x rest2 heq
      rw [List.cons.injEq] at heq
      exact absurd heq.1 hc0b
    · rw [hpa]

theorem roundArr_cons (gap : List Char) (hg : WsOnly gap) (v : JVal)
    (vs : List JVal) (hv : RoundVal gap v) (htail : RoundArr gap vs) :
    RoundArr gap (v :: vs) := by
  intro _ ind hind rest hrest f hf
  match f with
  | 0 => exact absurd hf (by omega)
  | f' + 1 =>
    have hElems : printArrElems gap ind (v :: vs) ++ rest =
        nlIndent gap (ind ++ gap) ++ (printVal gap (ind ++ gap) v ++
          (printArrTail gap ind vs ++ rest)) := by
      simp only [printArrElems, List.append_assoc]
    obtain ⟨ct, tt, hct, hctd⟩ := printArrTail_head gap ind vs
    have htail_nd : headNotDigit (printArrTail gap ind vs ++ rest) = true := by
      rw [hct, List.cons_append, headNotDigit, hctd]
      rfl
    obtain ⟨c0, t0, hpv, hc0ws, hc0b, hc0r⟩ := printVal_head gap (ind ++ gap) v
    have hlens : (printArrElems gap ind (v :: vs) ++ rest).length =
        (nlIndent gap (ind ++ gap)).length +
          ((printVal gap (ind ++ gap) v).length +
            (printArrTail gap ind vs ++ rest).length) := by
      rw [hElems]
      simp [List.length_append]
    have hpvlen : 1 ≤ (printVal gap (ind ++ gap) v).length := by
      rw [hpv]
      simp
    obtain ⟨g, rfl⟩ : ∃ g, f' = g + 1 := ⟨f' - 1, by omega⟩
    have hsplit : (printVal gap (ind ++ gap) v ++
        (printArrTail gap ind vs ++ rest)).length =
        (printVal gap (ind ++ gap) v).length +
          (printArrTail gap ind vs ++ rest).length := by
      simp [List.length_append]
    simp only [parseArrItems]
    have hpv_parse : parseVal (g + 1)
        (printArrElems gap ind (v :: vs) ++ rest) =
        some (v, printArrTail gap ind vs ++ rest) := by
      rw [hElems,
        parseVal_ws g _ _ (nlIndent_wsOnly gap (ind ++ gap)
          (wsOnly_append hind hg))]
      exact hv (ind ++ gap) (wsOnly_append hind hg) _ htail_nd (g + 1)
        (by omega)
    simp only [hpv_parse]
    cases vs with
    | nil =>
      have hskip : skipWs (printArrTail gap ind [] ++ rest) = ']' :: rest := by
        rw [printArrTail, List.append_assoc, List.singleton_append,
          skipWs_ws_append _ _ (nlIndent_wsOnly gap ind hind),
          skipWs_not_ws _ _ (by decide)]
      simp only [hskip]
    | cons v2 vs2 =>
      have hskip : skipWs (printArrTail gap ind (v2 :: vs2) ++ rest) =
          ',' :: (printArrElems gap ind (v2 :: vs2) ++ rest) := by
        rw [printArrTail, List.cons_append,
          skipWs_not_ws _ _ (by decide), printArrElems]
      simp only [hskip]
      have harith2 : 2 * (printArrElems gap ind (v2 :: vs2) ++ rest).length +
          2 ≤ g + 1 := by
        have htlen : (printArrTail gap ind (v2 :: vs2) ++ rest).length =
            1 + (printArrElems gap ind (v2 :: vs2) ++ rest).length := by
          rw [printArrTail, printArrElems]
          simp [List.length_append]
          omega
        omega
      show (match parseArrItems (g + 1)
          (printArrElems gap ind (v2 :: vs2) ++ rest) with
        | some (vs3, rest3) => some (v :: vs3, rest3)
        | none => none) = some (v :: v2 :: vs2, rest)
      rw [htail (by simp) ind hind rest hrest (g + 1) harith2]

theorem wsOnly_colonGap (gap : List Char) :
    WsOnly (if gap = [] then [] else [' ']) := by
  by_cases h : gap = []
  · rw [if_pos h]
    exact wsOnly_nil
  · rw [if_neg h]
    intro c hc
    simp only [List.mem_singleton] at hc
    rw [hc]
    decide

theorem printField_shape (gap ind : List Char) (k : String) (v : JVal)
    (x : List Char) :
    printField gap ind (k, v) ++ x =
      '"' :: (escapeChars k.data ++ ('"' :: (':' ::
        ((if gap = [] then [] else [' ']) ++ (printVal gap ind v ++ x))))) := by
  simp only [printField, printString, List.cons_append, List.append_assoc,
    List.singleton_append, List.nil_append]

theorem roundVal_jobj_cons (gap : List Char) (hg : WsOnly gap)
    (fld : String × JVal) (fs : List (String × JVal))
    (ha : RoundObj gap (fld :: fs)) : RoundVal gap (.jobj (fld :: fs)) := by
  intro ind hind rest hrest f hf
  match f with
  | 0 => exact absurd hf (by omega)
  | f' + 1 =>
    show parseVal (f' + 1)
      (('\x7b' :: printObjElems gap ind (fld :: fs)) ++ rest) =
      some (.jobj (fld :: fs), rest)
    rw [List.cons_append]
    simp only [parseVal]
    rw [skipWs_not_ws _ _ (by decide)]
    simp only [show ('\x7b' : Char).isDigit = false from by decide]
    obtain ⟨k, v⟩ := fld
    have hElems : printObjElems gap ind ((k, v) :: fs) ++ rest =
        nlIndent gap (ind ++ gap) ++ (printField gap (ind ++ gap) (k, v) ++
          (printObjTail gap ind fs ++ rest)) := by
      simp only [printObjElems, List.append_assoc]
    have hskip : skipWs (printObjElems gap ind ((k, v) :: fs) ++ rest) =
        '"' :: (escapeChars k.data ++ ('"' :: (':' ::
          ((if gap = [] then [] else [' ']) ++ (printVal gap (ind ++ gap) v ++
            (printObjTail gap ind fs ++ rest)))))) := by
      rw [hElems,
        skipWs_ws_append _ _ (nlIndent_wsOnly gap (ind ++ gap)
          (wsOnly_append hind hg)),
        printField_shape, skipWs_not_ws _ _ (by decide)]
    rw [hskip]
    have hf2 : 2 * (('\x7b' :: printObjElems gap ind ((k, v) :: fs)) ++
        rest).length + 1 ≤ f' + 1 := hf
    have harith : 2 * (printObjElems gap ind ((k, v) :: fs) ++ rest).length +
        2 ≤ f' := by
      simp only [List.cons_append, List.length_cons] at hf2
      omega
    have hpa := ha (by simp) ind hind rest hrest f' harith
    simp only [Bool.false_eq_true, if_false]
    split
    · rename_i x rest2 heq
      rw [List.cons.injEq] at heq
      exact absurd heq.1 (by decide)
    · rw [hpa]

theorem roundObj_cons (gap : List Char) (hg : WsOnly gap) (k : String)
    (v : JVal) (fs : List (String × JVal)) (hv : RoundVal gap v)
    (htail : RoundObj gap fs) : RoundObj gap ((k, v) :: fs) := by
  intro _ ind hind rest hrest f hf
  match f with
  | 0 => exact absurd hf (by omega)
  | f' + 1 =>
    have hElems : printObjElems gap ind ((k, v) :: fs) ++ rest =
        nlIndent gap (ind ++ gap) ++ (printField gap (ind ++ gap) (k, v) ++
          (printObjTail gap ind fs ++ rest)) := by
      simp only [printObjElems, List.append_assoc]
    obtain ⟨ct, tt, hct, hctd⟩ := printObjTail_head gap ind fs
    have htail_nd : headNotDigit (printObjTail gap ind fs ++ rest) = true := by
      rw [hct, List.cons_append, headNotDigit, hctd]
      rfl
    obtain ⟨c0, t0, hpv, hc0ws, hc0b, hc0r⟩ :=
      printVal_head gap (ind ++ gap) v
    have hpvlen : 1 ≤ (printVal gap (ind ++ gap) v).length := by
      rw [hpv]
      simp
    have hlens : (printObjElems gap ind ((k, v) :: fs) ++ rest).length =
        (nlIndent gap (ind ++ gap)).length +
          ((printField gap (ind ++ gap) (k, v)).length +
            (printObjTail gap ind fs ++ rest).length) := by
      rw [hElems]
      simp [List.length_append]
    have hflen : (printField gap (ind ++ gap) (k, v)).length =
        (escapeChars k.data).length + 3 +
          (if gap = [] then ([] : List Char) else [' ']).length +
          (printVal gap (ind ++ gap) v).length := by
      have := printField_shape gap (ind ++ gap) k v []
      have hlen := congrArg List.length this
      simp [List.length_append] at hlen
      omega
    obtain ⟨g, rfl⟩ : ∃ g, f' = g + 1 := ⟨f' - 1, by omega⟩
    simp only [parseObjItems]
    have hskip : skipWs (printObjElems gap ind ((k, v) :: fs) ++ rest) =
        '"' :: (escapeChars k.data ++ ('"' :: (':' ::
          ((if gap = [] then [] else [' ']) ++ (printVal gap (ind ++ gap) v ++
            (printObjTail gap ind fs ++ rest)))))) := by
      rw [hElems,
        skipWs_ws_append _ _ (nlIndent_wsOnly gap (ind ++ gap)
          (wsOnly_append hind hg)),
        printField_shape, skipWs_not_ws _ _ (by decide)]
    simp only [hskip]
    simp only [parseStrChars_escapeChars]
    simp only [show ∀ y : List Char, skipWs (':' :: y) = ':' :: y from
      fun y => skipWs_not_ws ':' y (by decide)]
    have hval : parseVal (g + 1)
        ((if gap = [] then [] else [' ']) ++ (printVal gap (ind ++ gap) v ++
          (printObjTail gap ind fs ++ rest))) =
        some (v, printObjTail gap ind fs ++ rest) := by
      rw [parseVal_ws g _ _ (wsOnly_colonGap gap)]
      apply hv (ind ++ gap) (wsOnly_append hind hg) _ htail_nd (g + 1)
      have : (printVal gap (ind ++ gap) v ++
          (printObjTail gap ind fs ++ rest)).length =
          (printVal gap (ind ++ gap) v).length +
            (printObjTail gap ind fs ++ rest).length := by
        simp [List.length_append]
      omega
    simp only [hval]
    cases fs with
    | nil =>
      have hskip2 : skipWs (printObjTail gap ind [] ++ rest) =
          '\x7d' :: rest := by
        rw [printObjTail, List.append_assoc, List.singleton_append,
          skipWs_ws_append _ _ (nlIndent_wsOnly gap ind hind),
          skipWs_not_ws _ _ (by decide)]
      simp only [hskip2, stringMk_data]
    | cons f2 fs2 =>
      have hskip2 : skipWs (printObjTail gap ind (f2 :: fs2) ++ rest) =
          ',' :: (printObjElems gap ind (f2 :: fs2) ++ rest) := by
        rw [printObjTail, List.cons_append,
          skipWs_not_ws _ _ (by decide), printObjElems]
      simp only [hskip2]
      have harith2 : 2 * (printObjElems gap ind (f2 :: fs2) ++ rest).length +
          2 ≤ g + 1 := by
        have htlen : (printObjTail gap ind (f2 :: fs2) ++ rest).length =
            1 + (printObjElems gap ind (f2 :: fs2) ++ rest).length := by
          rw [printObjTail, printObjElems]
          simp [List.length_append]
          omega
        omega
      show (match parseObjItems (g + 1)
          (printObjElems gap ind (f2 :: fs2) ++ rest) with
        | some (fs3, rest3) => some ((String.mk k.data, v) :: fs3, rest3)
        | none => none) = some ((k, v) :: f2 :: fs2, rest)
      rw [htail (by simp) ind hind rest hrest (g + 1) harith2, stringMk_data]

theorem roundAll (gap : List Char) (hg : WsOnly gap) : ∀ N : Nat,
    (∀ v, jsize v ≤ N → RoundVal gap v) ∧
    (∀ l, jsizeArr l ≤ N → RoundArr gap l) ∧
    (∀ l, jsizeObj l ≤ N → RoundObj gap l) := by
  intro N
  induction N with
  | zero =>
    refine ⟨fun v hv => absurd hv ?_, fun l hl => absurd hl ?_,
      fun l hl => absurd hl ?_⟩
    · have := jsize_pos v
      omega
    · have := jsizeArr_pos l
      omega
    · have := jsizeObj_pos l
      omega
  | succ N ih =>
    obtain ⟨ihV, ihA, ihO⟩ := ih
    have hval : ∀ v, jsize v ≤ N + 1 → RoundVal gap v := by
      intro v hv
      cases v with
      | jnull => exact roundVal_jnull gap
      | jbool b => exact roundVal_jbool gap b
      | jnum n => exact roundVal_jnum gap n
      | jstr s => exact roundVal_jstr gap s
      | jarr l =>
        cases l with
        | nil => exact roundVal_jarr_nil gap
        | cons x xs =>
          refine roundVal_jarr_cons gap hg x xs (ihA (x :: xs) ?_)
          have : jsize (.jarr (x :: xs)) = 1 + jsizeArr (x :: xs) := rfl
          omega
      | jobj l =>
        cases l with
        | nil => exact roundVal_jobj_nil gap
        | cons x xs =>
          refine roundVal_jobj_cons gap hg x xs (ihO (x :: xs) ?_)
          have : jsize (.jobj (x :: xs)) = 1 + jsizeObj (x :: xs) := rfl
          omega
    refine ⟨hval, ?_, ?_⟩
    · intro l hl
      cases l with
      | nil => exact fun h => absurd rfl h
      | cons x xs =>
        have hsz : jsizeArr (x :: xs) = 1 + jsize x + jsizeArr xs := rfl
        have h1 := jsize_pos x
        have h2 := jsizeArr_pos xs
        exact roundArr_cons gap hg x xs (ihV x (by omega))
          (ihA xs (by omega))
    · intro l hl
      cases l with
      | nil => exact fun h => absurd rfl h
      | cons x xs =>
        obtain ⟨k, v⟩ := x
        have hsz : jsizeObj ((k, v) :: xs) = 1 + jsize v + jsizeObj xs := rfl
        have h1 := jsize_pos v
        have h2 := jsizeObj_pos xs
        exact roundObj_cons gap hg k v xs (ihV v (by omega))
          (ihO xs (by omega))

/-- Round trip of the serializer through the reader, for any whitespace-only
gap: `JSON.parse` applied to the output of `JSON.stringify` returns exactly
the serialized value. -/
theorem parseJson_print (gap : List Char) (hg : WsOnly gap) (v : JVal) :
    parseJson (String.mk (printVal gap [] v)) = some v := by
  have h := ((roundAll gap hg (jsize v)).1 v le_rfl) [] wsOnly_nil []
    (by rfl) (2 * (String.mk (printVal gap [] v)).length + 1) ?_
  · rw [parseJson]
    rw [List.append_nil] at h
    rw [show (String.mk (printVal gap [] v)).data = printVal gap [] v from
      rfl]
    rw [h]
    rfl
  · rw [List.append_nil]
    exact Nat.le_refl _

theorem parseJson_stringifyCompact (v : JVal) :
    parseJson (stringifyCompact v) = some v :=
  parseJson_print [] wsOnly_nil v

theorem parseJson_stringifyIndent2 (v : JVal) :
    parseJson (stringifyIndent2 v) = some v :=
  parseJson_print [' ', ' ']
    (by intro c hc; simp only [List.mem_cons, List.mem_singleton] at hc
        rcases hc with rfl | rfl | h
        · decide
        · decide
        · cases h) v

/-! ## JSON export (src/utils/exportUtils.ts, `exportToJSON`)

The functions below give the JSON value of an `AnalysisResult` as the
JavaScript runtime object passed to `JSON.stringify`: fields in
declaration order, an optional field absent from the object when it is
absent from the record (`JSON.stringify` drops `undefined` members). -/

/-- Object member list of one optional field: absent field, no member. -/
def optField {α : Type} (name : String) (f : α → JVal) :
    Option α → List (String × JVal)
  | none => []
  | some x => [(name, f x)]

/-- JSON value of a string list. -/
def strListToJson (l : List String) : JVal :=
  .jarr (l.map JVal.jstr)

/-- JSON value of a bounding box. -/
def positionToJson (p : Position) : JVal :=
  .jobj [("x", .jnum p.x), ("y", .jnum p.y), ("width", .jnum p.width),
    ("height", .jnum p.height)]

/-- JSON value of a content variant. -/
def variantToJson (v : ContentVariant) : JVal :=
  .jobj ([("id", .jstr v.id), ("content", .jstr v.content),
    ("seoScore", .jnum v.seoScore), ("tone", .jstr v.tone),
    ("lengthCategory", .jstr v.lengthCategory)] ++
    optField "predictedCTR" JVal.jnum v.predictedCTR ++
    [("reasoning", .jstr v.reasoning)])

/-- JSON value of a detected section. -/
def sectionToJson (s : DetectedSection) : JVal :=
  .jobj ([("id", .jstr s.id), ("type", .jstr s.type),
    ("label", .jstr s.label), ("position", positionToJson s.position)] ++
    optField "currentContent" JVal.jstr s.currentContent ++
    [("suggestedContent", .jstr s.suggestedContent)] ++
    optField "contentVariants" (fun l => .jarr (l.map variantToJson))
      s.contentVariants ++
    [("seoScore", .jnum s.seoScore),
      ("keywords", strListToJson s.keywords),
      ("characterCount", .jnum s.characterCount)] ++
    optField "readabilityScore" JVal.jnum s.readabilityScore ++
    optField "sentimentScore" JVal.jnum s.sentimentScore ++
    optField "brandVoiceMatch" JVal.jnum s.brandVoiceMatch ++
    optField "technicalSeoIssues" strListToJson s.technicalSeoIssues ++
    optField "accessibilityIssues" strListToJson s.accessibilityIssues)

/-- JSON value of the technical SEO block. -/
def technicalSeoToJson (t : TechnicalSEO) : JVal :=
  .jobj (optField "metaTitle" JVal.jstr t.metaTitle ++
    optField "metaDescription" JVal.jstr t.metaDescription ++
    [("h1Tags", strListToJson t.h1Tags),
      ("imageAltTexts", strListToJson t.imageAltTexts)] ++
    optField "schemaMarkup" JVal.jstr t.schemaMarkup ++
    [("internalLinks", strListToJson t.internalLinks)] ++
    optField "canonicalUrl" JVal.jstr t.canonicalUrl ++
    optField "robotsDirective" JVal.jstr t.robotsDirective)

/-- JSON value of one competitor insight. -/
def competitorInsightToJson (c : CompetitorInsight) : JVal :=
  .jobj [("competitorName", .jstr c.competitorName),
    ("strengths", strListToJson c.strengths),
    ("weaknesses", strListToJson c.weaknesses),
    ("uniqueDifferentiators", strListToJson c.uniqueDifferentiators),
    ("keywordGaps", strListToJson c.keywordGaps)]

/-- JSON value of the brand voice analysis block. -/
def brandVoiceAnalysisToJson (b : BrandVoiceAnalysis) : JVal :=
  .jobj [("detectedTone", .jstr b.detectedTone),
    ("consistency", .jnum b.consistency),
    ("suggestions", strListToJson b.suggestions)]

/-- JSON value of the performance metrics block. -/
def performanceMetricsToJson (p : PerformanceMetrics) : JVal :=
  .jobj [("estimatedLoadTime", .jnum p.estimatedLoadTime),
    ("mobileOptimization", .jnum p.mobileOptimization),
    ("coreWebVitals", .jobj [("lcp", .jstr p.coreWebVitals.lcp),
      ("fid", .jstr p.coreWebVitals.fid),
      ("cls", .jstr p.coreWebVitals.cls)])]

/-- JSON value of an analysis result, the runtime object that
`exportToJSON` hands to `JSON.stringify`. -/
def resultToJson (r : AnalysisResult) : JVal :=
  .jobj ([("sections", .jarr (r.sections.map sectionToJson)),
    ("overallSeoScore", .jnum r.overallSeoScore),
    ("recommendations", strListToJson r.recommendations),
    ("pageType", .jstr r.pageType), ("imageUrl", .jstr r.imageUrl)] ++
    optField "imageFileName" JVal.jstr r.imageFileName ++
    optField "timestamp" JVal.jnum r.timestamp ++
    optField "technicalSeo" technicalSeoToJson r.technicalSeo ++
    optField "competitorInsights"
      (fun l => .jarr (l.map competitorInsightToJson))
      r.competitorInsights ++
    optField "brandVoiceAnalysis" brandVoiceAnalysisToJson
      r.brandVoiceAnalysis ++
    optField "performanceMetrics" performanceMetricsToJson
      r.performanceMetrics)

/-- JSON export: `JSON.stringify(analysis, null, 2)`. -/
def exportToJSON (analysis : AnalysisResult) : String :=
  stringifyIndent2 (resultToJson analysis)

/-- Claim C8: for every analysis result, `JSON.parse` applied to the
string produced by `exportToJSON` yields exactly the JSON value of the
input result — the serialization is a lossless round trip, field for
field, with no lossy transformation. -/
theorem claim_C8_json_export_roundtrip (r : AnalysisResult) :
    parseJson (exportToJSON r) = some (resultToJson r) :=
  parseJson_stringifyIndent2 (resultToJson r)

/-! ## History import (src/types.ts, `importHistoryFromJSON` and
`getAnalysisHistory`)

Storage is the three raw string slots the functions touch.  Property
access `data.history` on a parsed value is `objGet`; for a duplicate
key `JSON.parse` keeps the last occurrence, hence the reversed search.
`if (data.history)` is JavaScript truthiness of the field value. -/

/-- Raw string contents of the three storage keys. -/
structure StorageState where
  analysisHistory : Option String
  brandVoice : Option String
  preferences : Option String
deriving Repr, DecidableEq

/-- Property access on a parsed JSON value; `none` is `undefined`. -/
def objGet (v : JVal) (k : String) : Option JVal :=
  match v with
  | .jobj fields => (fields.reverse.find? (fun p => p.1 == k)).map
      (fun p => p.2)
  | _ => none

/-- JavaScript truthiness of a JSON value. -/
def truthy (v : JVal) : Bool :=
  match v with
  | .jnull => false
  | .jbool b => b
  | .jnum n => !(n == 0)
  | .jstr s => !(s == "")
  | .jarr _ => true
  | .jobj _ => true

/-- Import: parse the payload, and for each of the three recognized
fields that is present and truthy overwrite the corresponding storage
slot with the field's own serialization; a parse failure is caught and
reported as `false` with storage untouched. -/
def importHistoryFromJSON (jsonString : String) (store : StorageState) :
    Bool × StorageState :=
  match parseJson jsonString with
  | none => (false, store)
  | some d =>
    let store := match objGet d "history" with
      | some v =>
        if truthy v then
          { store with analysisHistory := some (stringifyCompact v) }
        else store
      | none => store
    let store := match objGet d "brandVoice" with
      | some v =>
        if truthy v then { store with brandVoice := some (stringifyCompact v) }
        else store
      | none => store
    let store := match objGet d "preferences" with
      | some v =>
        if truthy v then
          { store with preferences := some (stringifyCompact v) }
        else store
      | none => store
    (true, store)

/-- Read of the history key as the JSON value the caller receives:
absent key or corrupt JSON degrade to the empty array. -/
def getAnalysisHistoryJson (store : StorageState) : JVal :=
  match store.analysisHistory with
  | none => .jarr []
  | some data =>
    match parseJson data with
    | some v => v
    | none => .jarr []

/-- Claim C10: a valid import payload whose `history` field is an array
of length L > 50 is stored verbatim — a subsequent `getAnalysisHistory`
returns all L entries, the 50-entry cap not being applied on import —
and an invalid payload makes the import return `false` and leaves every
stored record unchanged. -/
theorem claim_C10_import_uncapped :
    (∀ (s : String) (d : JVal) (l : List JVal) (store : StorageState),
      parseJson s = some d → objGet d "history" = some (.jarr l) →
      50 < l.length →
      (importHistoryFromJSON s store).1 = true ∧
      getAnalysisHistoryJson (importHistoryFromJSON s store).2 =
        .jarr l) ∧
    (∀ (s : String) (store : StorageState), parseJson s = none →
      importHistoryFromJSON s store = (false, store)) := by
  constructor
  · intro s d l store hp hh _
    rw [importHistoryFromJSON, hp]
    simp only [hh]
    rw [show truthy (.jarr l) = true from rfl, if_pos rfl]
    refine ⟨by trivial, ?_⟩
    cases h2 : objGet d "brandVoice" with
    | none =>
      cases h3 : objGet d "preferences" with
      | none =>
        simp only [getAnalysisHistoryJson, parseJson_stringifyCompact]
      | some v3 =>
        by_cases ht3 : truthy v3 = true <;>
          simp only [ht3, if_pos, if_neg, Bool.not_eq_true, ht3,
            getAnalysisHistoryJson, parseJson_stringifyCompact]
    | some v2 =>
      cases h3 : objGet d "preferences" with
      | none =>
        by_cases ht2 : truthy v2 = true <;>
          simp [getAnalysisHistoryJson, parseJson_stringifyCompact, ht2]
      | some v3 =>
        by_cases ht2 : truthy v2 = true <;>
          by_cases ht3 : truthy v3 = true <;>
          simp [getAnalysisHistoryJson, parseJson_stringifyCompact, ht2, ht3]
  · intro s store hp
    rw [importHistoryFromJSON, hp]

/-- Payload for the claim C10 witness: a JSON object whose `history`
field is an array of 51 entries. -/
def c10payloadValue : JVal :=
  .jobj [("history", .jarr (List.replicate 51 (.jnum 7)))]

/-- Witness for claim C10 at a concrete 51-entry payload and at a concrete
invalid payload. -/
theorem claim_C10_import_uncapped_witness :
    ((importHistoryFromJSON (stringifyCompact c10payloadValue)
        ⟨none, none, none⟩).1 = true ∧
      getAnalysisHistoryJson (importHistoryFromJSON
        (stringifyCompact c10payloadValue) ⟨none, none, none⟩).2 =
        .jarr (List.replicate 51 (.jnum 7))) ∧
    importHistoryFromJSON "not json" ⟨none, none, none⟩ =
      (false, ⟨none, none, none⟩) :=
  ⟨claim_C10_import_uncapped.1 (stringifyCompact c10payloadValue)
      c10payloadValue (List.replicate 51 (.jnum 7)) ⟨none, none, none⟩
      (parseJson_stringifyCompact c10payloadValue) rfl (by simp),
    claim_C10_import_uncapped.2 "not json" ⟨none, none, none⟩ rfl⟩

end VCM
